import Mathlib

/-!
# Lifecycle of the `doc` static file server (`main.go`)

A shallow embedding of `main.go`.  The program is one `main` function that
parses two flags, binds a listener, launches two goroutines (the serving task
and the signal watcher), joins them through a `sync.WaitGroup` and classifies
the error left by the serving task.

The embedding is an interleaving state machine.  Every statement of `main.go`
is a transition of one of three program counters; the calls into the Go
standard library (`flag`, `net`, `net/http`, `errors`, `os/signal`, `log`) are
transitions whose effect follows the documented contract of the library:

* `errors.Is` walks the `Unwrap` chain of its first argument;
* `flag.Parse` is the `parseOne` loop of package `flag` with `ExitOnError`;
* `(*http.Server).Serve` returns `http.ErrServerClosed` when the server is
  shutting down, returns the `Accept` error otherwise, and closes the listener
  (through its once-only wrapper) when it returns;
* `(*http.Server).Close` marks the server as shutting down, closes the tracked
  listener and closes every active connection;
* `log.Fatal` prints its argument and calls `os.Exit(1)`: deferred calls do
  not run;
* the function returned by `signal.NotifyContext` unregisters the signal and
  cancels the context.

The environment contributes: the outcome of `net.Listen`, connections being
accepted, `Accept` failing, requests completing, and the interrupt signal.

There are two layers.  `step` is the program with the interrupt delivered to
the notification of `signal.NotifyContext`, which exists from line 44 to the
deferred `stop()`.  `stepSig` is the process with the interrupt deliverable at
any time: where no notification is registered the signal has its default
disposition and ends the process.
-/

namespace Doc

set_option linter.unusedTactic false
set_option linter.unreachableTactic false

/-! ## Error values and `errors.Is` -/

/-- Go error values: a comparable leaf error, or an error wrapping another one
(`fmt.Errorf("...: %w", inner)`).  A leaf error is one value of the program,
such as the variable `http.ErrServerClosed`; the text names that value, so two
leaves are the same value exactly when they carry the same text. -/
inductive GoError where
  | sentinel (text : String)
  | wrapped (msg : String) (inner : GoError)
  deriving DecidableEq

/-- The sentinel `http.ErrServerClosed`. -/
def ErrServerClosed : GoError := .sentinel "http: Server closed"

/-- The loop of `errors.is`: compare, then unwrap. -/
def GoError.is : GoError → GoError → Bool
  | .sentinel t, target => decide (GoError.sentinel t = target)
  | .wrapped m inner, target =>
    if GoError.wrapped m inner = target then true else GoError.is inner target

/-- The function `errors.Is(err, target)`; `none` is the nil error. -/
def errorsIs (err target : Option GoError) : Bool :=
  match err, target with
  | some e, some t => e.is t
  | none, none => true
  | _, _ => false

/-! ## Package `flag`: the two string flags of `init` and `flag.Parse` -/

/-- The flag set of the command line: the two package-level variables of
`main.go`, the names of the flags that were set (`actual`) and the arguments
still to be read. -/
structure FlagSet where
  addr : String
  dir : String
  actual : List String
  args : List String
  deriving DecidableEq

/-- The function `init` of `main.go`: both variables get their default. -/
def init (args : List String) : FlagSet :=
  { addr := "localhost:9090", dir := ".", actual := [], args := args }

/-- Result of one round of `parseOne`. -/
inductive ParseStep where
  | seen (fs : FlagSet)
  | finished (fs : FlagSet)
  | failed (help : Bool)
  deriving DecidableEq

/-- Scan for the first `=`: the text before it and, when there is one, the
text after it. -/
def scanEq : List Char → List Char × Option (List Char)
  | [] => ([], none)
  | c :: cs =>
    if c = '=' then ([], some cs)
    else ((c :: (scanEq cs).1), (scanEq cs).2)

/-- Split `name=value`; the `=` cannot be the first character. -/
def cutValue : List Char → List Char × Option (List Char)
  | [] => ([], none)
  | c :: cs => ((c :: (scanEq cs).1), (scanEq cs).2)

/-- The effect of `flag.Value.Set` for the two registered string flags, with
the bookkeeping of `actual`. -/
def setFlag (fs : FlagSet) (name value : String) (rest : List String) : FlagSet :=
  if name = "addr" then
    { fs with
      addr := value
      actual := if name ∈ fs.actual then fs.actual else fs.actual ++ [name]
      args := rest }
  else
    { fs with
      dir := value
      actual := if name ∈ fs.actual then fs.actual else fs.actual ++ [name]
      args := rest }

/-- The second half of `(*FlagSet).parseOne`, once the dashes are removed:
`name` is the text after them, `rest` the arguments after this one. -/
def parseNamed (fs : FlagSet) (name : List Char) (rest : List String) : ParseStep :=
  match name with
  | [] => .failed false
  | n0 :: _ =>
    if n0 = '-' ∨ n0 = '=' then .failed false
    else if String.mk (cutValue name).1 = "addr" ∨ String.mk (cutValue name).1 = "dir" then
      match (cutValue name).2, rest with
      | some v, _ => .seen (setFlag fs (String.mk (cutValue name).1) (String.mk v) rest)
      | none, v :: rest2 => .seen (setFlag fs (String.mk (cutValue name).1) v rest2)
      | none, [] => .failed false
    else if String.mk (cutValue name).1 = "help" ∨ String.mk (cutValue name).1 = "h" then
      .failed true
    else .failed false

/-- One round of `(*FlagSet).parseOne` for a flag set whose formal flags are
the string flags `addr` and `dir`. -/
def parseOne (fs : FlagSet) : ParseStep :=
  match fs.args with
  | [] => .finished fs
  | s :: rest =>
    match s.toList with
    | '-' :: c :: cs =>
      if c = '-' ∧ cs = [] then .finished { fs with args := rest }
      else parseNamed fs (if c = '-' then cs else c :: cs) rest
    | _ => .finished fs

/-- Outcome of `flag.Parse` under `flag.ExitOnError`. -/
inductive ParseResult where
  | ok (fs : FlagSet)
  | exit (code : Nat)
  deriving DecidableEq

/-- The loop of `(*FlagSet).Parse`, bounded by a number of rounds. -/
def parseLoop : Nat → FlagSet → Option ParseResult
  | 0, _ => none
  | n + 1, fs =>
    match parseOne fs with
    | .seen fs2 => parseLoop n fs2
    | .finished fs2 => some (.ok fs2)
    | .failed help => some (.exit (if help then 0 else 2))

/-- The call `flag.Parse()`: every round consumes an argument, so one round
more than there are arguments is enough. -/
def flagParse (fs : FlagSet) : Option ParseResult :=
  parseLoop (fs.args.length + 1) fs

/-! ## The state of a run of `main` -/

/-- Program counter of `main` (the line about to run). -/
inductive MainPC where
  | parse        -- line 35: flag.Parse()
  | listen       -- line 37: l, err := net.Listen("tcp", addr)
  | checkBind    -- lines 38-40: if err != nil then log.Fatal(err)
  | deferClose   -- line 41: defer l.Close()
  | notify       -- lines 43-44: signal.NotifyContext
  | deferStop    -- line 45: defer stop()
  | mkServer     -- lines 47-49: the http.Server literal
  | addA         -- line 52: wg.Add(1)
  | goA          -- line 53: go func() (serving task)
  | addB         -- line 59: wg.Add(1)
  | goB          -- line 60: go func() (signal watcher)
  | wait         -- line 67: wg.Wait()
  | classify     -- lines 68-70: the errors.Is test
  | returning    -- line 71: main returns, deferred calls run
  | exited (code : Nat)
  deriving DecidableEq

/-- Program counter of the serving task (lines 53-57). -/
inductive ServePC where
  | idle         -- not launched
  | logAddr      -- line 55: log.Printf
  | call         -- line 56: s.Serve(l) is about to be called
  | accepting    -- line 56: inside s.Serve, blocked in Accept
  | wgDone       -- line 54: s.Serve has returned, the deferred wg.Done is due
  | done
  deriving DecidableEq

/-- Program counter of the signal watcher (lines 60-65). -/
inductive WatchPC where
  | idle         -- not launched
  | waitCtx      -- line 62: receive from ctx.Done()
  | logClosing   -- line 63: log.Println
  | close        -- line 64: s.Close()
  | wgDone       -- line 61: the deferred wg.Done is due
  | done
  deriving DecidableEq

/-- A deferred call of `main`. -/
inductive Deferred where
  | lClose       -- line 41
  | stop         -- line 45
  deriving DecidableEq

/-- A line written through package `log`. -/
inductive LogLine where
  | serveAt      -- line 55: "Serve at http://" followed by l.Addr()
  | closing
  | fatal (err : Option GoError)
  deriving DecidableEq

/-- The state of the process. -/
structure State where
  /-- outcome the operating system gives to `net.Listen` (`none`: bound) -/
  bindErr : Option GoError
  flags : FlagSet
  mainPC : MainPC
  servePC : ServePC
  watchPC : WatchPC
  /-- the variable `err` of `main`, shared with the serving task -/
  err : Option GoError
  /-- address given to `net.Listen`, once called -/
  listenArg : Option String
  /-- `net.Listen` returned a listener -/
  bound : Bool
  /-- the socket of the listener is open -/
  lisOpen : Bool
  /-- number of times `Close` ran on the listener `l` -/
  lisCloses : Nat
  /-- the deferred calls of `main`, last registered first -/
  defers : List Deferred
  /-- the interrupt is registered with `os/signal` -/
  notifyOn : Bool
  /-- the channel `ctx.Done()` is closed -/
  ctxDone : Bool
  /-- an interrupt was delivered to the registered notification -/
  interrupted : Bool
  /-- directory given to `http.Dir`, once the server value is built -/
  rootArg : Option String
  /-- the server is shutting down (`srv.inShutdown`) -/
  inShutdown : Bool
  /-- the listener is tracked by the server (`srv.listeners`) -/
  tracked : Bool
  /-- the once-only wrapper `Serve` puts around `l` has fired -/
  onceClosed : Bool
  /-- requests in flight -/
  active : Nat
  /-- requests that ran to completion, response delivered -/
  served : Nat
  /-- requests whose connection was closed under them -/
  dropped : Nat
  /-- number of calls of `s.Close` -/
  closeReqs : Nat
  /-- number of calls of `s.Serve` -/
  serveCalls : Nat
  /-- value returned by `s.Serve`, once it has returned -/
  serveRet : Option GoError
  /-- error of `Accept` that made `s.Serve` give up, if any -/
  acceptFail : Option GoError
  /-- counter of the wait group -/
  wg : Nat
  /-- lines logged, oldest first -/
  out : List LogLine
  deriving DecidableEq

/-- The state in which `main` starts: `init` has run, nothing else. -/
def start (args : List String) (bindErr : Option GoError) : State :=
  { bindErr := bindErr, flags := init args,
    mainPC := .parse, servePC := .idle, watchPC := .idle,
    err := none, listenArg := none, bound := false, lisOpen := false,
    lisCloses := 0, defers := [], notifyOn := false, ctxDone := false,
    interrupted := false, rootArg := none, inShutdown := false,
    tracked := false, onceClosed := false, active := 0, served := 0,
    dropped := 0, closeReqs := 0, serveCalls := 0, serveRet := none,
    acceptFail := none, wg := 0, out := [] }

/-- What moves next: a statement of one of the three tasks, or the
environment. -/
inductive Action where
  | mainStep
  | serveStep
  | accept
  | acceptErr (e : GoError)
  | connDone
  | watchStep
  | interrupt
  deriving DecidableEq

/-! ## The transitions -/

/-- The call `s.Serve(l)` returns `ret` and line 56 stores it in `err`.  On
its way out `Serve` stops tracking the listener and closes it through the
once-only wrapper. -/
def serveReturn (s : State) (ret : GoError) : State :=
  { s with
    tracked := false
    lisOpen := if s.onceClosed then s.lisOpen else false
    lisCloses := if s.onceClosed then s.lisCloses else s.lisCloses + 1
    onceClosed := true
    serveRet := some ret
    err := some ret
    servePC := .wgDone }

/-- The call `s.Close()` of line 64, as one transition: the server is marked as
shutting down, the tracked listener is closed, and every active connection is
closed. -/
def serverClose (s : State) : State :=
  { s with
    inShutdown := true
    lisOpen := if s.tracked && !s.onceClosed then false else s.lisOpen
    lisCloses := if s.tracked && !s.onceClosed then s.lisCloses + 1 else s.lisCloses
    onceClosed := s.onceClosed || s.tracked
    dropped := s.dropped + s.active
    active := 0
    closeReqs := s.closeReqs + 1
    watchPC := .wgDone }

/-- The call `log.Fatal(e)`: the line is printed and the process exits with
status 1 without running deferred calls. -/
def logFatal (s : State) (e : Option GoError) : State :=
  { s with out := s.out ++ [.fatal e], mainPC := .exited 1 }

/-- One deferred call of `main`, run when `main` returns. -/
def runDeferred (s : State) (d : Deferred) (rest : List Deferred) : State :=
  match d with
  | .stop => { s with notifyOn := false, ctxDone := true, defers := rest }
  | .lClose => { s with lisCloses := s.lisCloses + 1, lisOpen := false, defers := rest }

/-- The next statement of `main`. -/
def mainStep (s : State) : Option State :=
  match s.mainPC with
  | .parse =>
    match flagParse s.flags with
    | none => none
    | some (.ok fs) => some { s with flags := fs, mainPC := .listen }
    | some (.exit code) => some { s with mainPC := .exited code }
  | .listen =>
    some { s with
      listenArg := some s.flags.addr
      err := s.bindErr
      bound := s.bindErr.isNone
      lisOpen := s.bindErr.isNone
      mainPC := .checkBind }
  | .checkBind =>
    if s.err.isSome then some (logFatal s s.err)
    else some { s with mainPC := .deferClose }
  | .deferClose => some { s with defers := .lClose :: s.defers, mainPC := .notify }
  | .notify => some { s with notifyOn := true, mainPC := .deferStop }
  | .deferStop => some { s with defers := .stop :: s.defers, mainPC := .mkServer }
  | .mkServer => some { s with rootArg := some s.flags.dir, mainPC := .addA }
  | .addA => some { s with wg := s.wg + 1, mainPC := .goA }
  | .goA => some { s with servePC := .logAddr, mainPC := .addB }
  | .addB => some { s with wg := s.wg + 1, mainPC := .goB }
  | .goB => some { s with watchPC := .waitCtx, mainPC := .wait }
  | .wait => if s.wg = 0 then some { s with mainPC := .classify } else none
  | .classify =>
    if errorsIs s.err (some ErrServerClosed) then some { s with mainPC := .returning }
    else some (logFatal s s.err)
  | .returning =>
    match s.defers with
    | [] => some { s with mainPC := .exited 0 }
    | d :: rest => some (runDeferred s d rest)
  | .exited _ => none

/-- The next statement of the serving task, `Accept` apart.  The line logged
at line 55 is recorded without the text of `l.Addr()`. -/
def serveStep (s : State) : Option State :=
  match s.servePC with
  | .idle => none
  | .logAddr =>
    some { s with
      out := s.out ++ [.serveAt]
      servePC := .call }
  | .call =>
    if s.inShutdown then
      some (serveReturn { s with serveCalls := s.serveCalls + 1 } ErrServerClosed)
    else
      some { s with serveCalls := s.serveCalls + 1, tracked := true, servePC := .accepting }
  | .accepting => none
  | .wgDone => some { s with wg := s.wg - 1, servePC := .done }
  | .done => none

/-- The next statement of the signal watcher. -/
def watchStep (s : State) : Option State :=
  match s.watchPC with
  | .idle => none
  | .waitCtx => if s.ctxDone then some { s with watchPC := .logClosing } else none
  | .logClosing => some { s with out := s.out ++ [.closing], watchPC := .close }
  | .close => some (serverClose s)
  | .wgDone => some { s with wg := s.wg - 1, watchPC := .done }
  | .done => none

/-- One transition; `none` when the action is not enabled. -/
def step (s : State) : Action → Option State
  | .mainStep => mainStep s
  | .serveStep => serveStep s
  | .accept =>
    if s.servePC = .accepting ∧ s.lisOpen = true then
      some { s with active := s.active + 1 }
    else none
  | .acceptErr e =>
    if s.servePC = .accepting then
      if s.inShutdown then some (serveReturn s ErrServerClosed)
      else some (serveReturn { s with acceptFail := some e } e)
    else none
  | .connDone =>
    if 0 < s.active then some { s with active := s.active - 1, served := s.served + 1 }
    else none
  | .watchStep => watchStep s
  | .interrupt =>
    if s.notifyOn then some { s with ctxDone := true, interrupted := true }
    else none

/-- Run a schedule from a state; `none` when some action is not enabled. -/
def run (s : State) : List Action → Option State
  | [] => some s
  | a :: rest =>
    match step s a with
    | none => none
    | some s2 => run s2 rest

/-- The states a run of `main` can be in. -/
def Reachable (args : List String) (bindErr : Option GoError) (s : State) : Prop :=
  ∃ sched : List Action, run (start args bindErr) sched = some s

/-! ## The invariant of the reachable states -/

/-- The serving task has been launched. -/
def launchedA : MainPC → Bool → Bool
  | .addB, _ | .goB, _ | .wait, _ | .classify, _ | .returning, _ => true
  | .exited _, b => b
  | _, _ => false

/-- The signal watcher has been launched. -/
def launchedB : MainPC → Bool → Bool
  | .wait, _ | .classify, _ | .returning, _ => true
  | .exited _, b => b
  | _, _ => false

/-- The control of `main` is past `wg.Wait()`. -/
def joined : MainPC → Bool → Bool
  | .classify, _ | .returning, _ => true
  | .exited _, b => b
  | _, _ => false

/-- A `wg.Add(1)` whose task is not launched yet. -/
def pendingAdd : MainPC → Nat
  | .goA | .goB => 1
  | _ => 0

/-- The task counts in the wait group. -/
def ServePC.live : ServePC → Nat
  | .idle | .done => 0
  | _ => 1

/-- The call `s.Serve` has returned. -/
def ServePC.returned : ServePC → Bool
  | .wgDone | .done => true
  | _ => false

/-- The call `s.Serve` has been made. -/
def ServePC.called : ServePC → Bool
  | .accepting | .wgDone | .done => true
  | _ => false

/-- The task counts in the wait group. -/
def WatchPC.live : WatchPC → Nat
  | .idle | .done => 0
  | _ => 1

/-- The receive from `ctx.Done()` has completed. -/
def WatchPC.woken : WatchPC → Bool
  | .logClosing | .close | .wgDone | .done => true
  | _ => false

/-- The call `s.Close()` has been made. -/
def WatchPC.closed : WatchPC → Bool
  | .wgDone | .done => true
  | _ => false

/-- The deferred `l.Close()` of line 41 has run. -/
def lCloseRan (pc : MainPC) (bound : Bool) (defers : List Deferred) : Bool :=
  joined pc bound && !decide (Deferred.lClose ∈ defers)

/-- What holds of the deferred calls and of the listener setup at each point of
`main`. -/
def mainFacts (pc : MainPC) (bound : Bool) (err bindErr : Option GoError)
    (listenArg : Option String) (addr : String) (out : List LogLine)
    (defers : List Deferred) (notifyOn : Bool) (rootArg : Option String) : Prop :=
  match pc with
  | .parse | .listen =>
    bound = false ∧ err = none ∧ listenArg = none ∧ out = [] ∧ defers = []
      ∧ notifyOn = false ∧ rootArg = none
  | .checkBind =>
    bound = err.isNone ∧ err = bindErr ∧ out = [] ∧ defers = []
      ∧ notifyOn = false ∧ rootArg = none ∧ listenArg = some addr
  | .deferClose => bound = true ∧ defers = [] ∧ notifyOn = false ∧ rootArg = none
  | .notify => bound = true ∧ defers = [.lClose] ∧ notifyOn = false ∧ rootArg = none
  | .deferStop => bound = true ∧ defers = [.lClose] ∧ notifyOn = true ∧ rootArg = none
  | .mkServer => bound = true ∧ defers = [.stop, .lClose] ∧ notifyOn = true ∧ rootArg = none
  | .addA | .goA | .addB | .goB | .wait | .classify =>
    bound = true ∧ defers = [.stop, .lClose] ∧ notifyOn = true
  | .returning =>
    bound = true ∧ errorsIs err (some ErrServerClosed) = true
      ∧ ((defers = [.stop, .lClose] ∧ notifyOn = true) ∨
         (defers = [.lClose] ∧ notifyOn = false) ∨ (defers = [] ∧ notifyOn = false))
  | .exited c =>
    if bound then
      (c = 0 ∧ errorsIs err (some ErrServerClosed) = true ∧ defers = [] ∧ notifyOn = false)
        ∨ (c = 1 ∧ errorsIs err (some ErrServerClosed) = false
            ∧ defers = [.stop, .lClose] ∧ notifyOn = true
            ∧ out.getLast? = some (.fatal err))
    else
      defers = [] ∧ notifyOn = false ∧ rootArg = none ∧
      ((listenArg = none ∧ out = [] ∧ err = none) ∨
       (c = 1 ∧ listenArg = some addr ∧ err = bindErr ∧ err.isSome = true
          ∧ out = [.fatal err]))

/-- The invariant. -/
structure Inv (s : State) : Prop where
  wgCount : s.wg = s.servePC.live + s.watchPC.live + pendingAdd s.mainPC
  aIdle : s.servePC = .idle ↔ launchedA s.mainPC s.bound = false
  bIdle : s.watchPC = .idle ↔ launchedB s.mainPC s.bound = false
  join : joined s.mainPC s.bound = true → s.servePC = .done ∧ s.watchPC = .done
  facts : mainFacts s.mainPC s.bound s.err s.bindErr s.listenArg s.flags.addr s.out s.defers
    s.notifyOn s.rootArg
  bindOk : s.bound = true → s.bindErr = none ∧ s.listenArg = some s.flags.addr
  root : s.rootArg = none ∨ s.rootArg = some s.flags.dir
  woken : s.watchPC.woken = true → s.interrupted = true
  ctx : s.ctxDone = true → s.interrupted = true ∨ joined s.mainPC s.bound = true
  intr : s.interrupted = true → s.bound = true
  notif : s.notifyOn = true → s.bound = true
  intCtx : s.interrupted = true → s.ctxDone = true
  fatalOut : ∀ e, LogLine.fatal e ∈ s.out → ∃ c, s.mainPC = .exited c
  closeCnt : s.closeReqs = if s.watchPC.closed then 1 else 0
  shut : s.inShutdown = s.watchPC.closed
  callCnt : s.serveCalls = if s.servePC.called then 1 else 0
  track : s.tracked = decide (s.servePC = .accepting)
  ret : s.servePC.returned = true →
    s.err = s.serveRet ∧ s.onceClosed = true ∧
    ((s.serveRet = some ErrServerClosed ∧ s.acceptFail = none) ∨
     (s.serveRet = s.acceptFail ∧ s.acceptFail.isSome = true))
  notRet : s.servePC.returned = false →
    s.serveRet = none ∧ s.acceptFail = none ∧ (s.bound = true → s.err = none)
  once : s.servePC.called = false → s.onceClosed = false
  onceAcc : s.servePC = .accepting → s.onceClosed = s.inShutdown
  lis : s.lisOpen = (s.bound && !s.onceClosed && !lCloseRan s.mainPC s.bound s.defers)
  closes : s.lisCloses = (if s.onceClosed then 1 else 0) + (if lCloseRan s.mainPC s.bound s.defers then 1 else 0)
  drained : s.inShutdown = true → s.active = 0

/-- How the flag set of a state relates to the command line. -/
def FlagInv (args : List String) (s : State) : Prop :=
  if s.mainPC = .parse then s.flags = init args ∧ s.listenArg = none ∧ s.rootArg = none
  else
    (s.listenArg = none ∧ s.rootArg = none ∧ ∃ c, s.mainPC = .exited c) ∨
      flagParse (init args) = some (.ok s.flags)

/-! ## What is left to run -/

/-- Statements `main` still has to run. -/
def mainRem : MainPC → List Deferred → Nat
  | .parse, _ => 17
  | .listen, _ => 16
  | .checkBind, _ => 15
  | .deferClose, _ => 14
  | .notify, _ => 13
  | .deferStop, _ => 12
  | .mkServer, _ => 11
  | .addA, _ => 10
  | .goA, _ => 9
  | .addB, _ => 8
  | .goB, _ => 7
  | .wait, _ => 6
  | .classify, _ => 5
  | .returning, ds => 1 + ds.length
  | .exited _, _ => 0

/-- Statements the serving task still has to run. -/
def serveRem : ServePC → Nat
  | .idle => 4
  | .logAddr => 4
  | .call => 3
  | .accepting => 2
  | .wgDone => 1
  | .done => 0

/-- Statements the signal watcher still has to run. -/
def watchRem : WatchPC → Nat
  | .idle => 4
  | .waitCtx => 4
  | .logClosing => 3
  | .close => 2
  | .wgDone => 1
  | .done => 0

/-- Statements the three tasks still have to run. -/
def remaining (s : State) : Nat :=
  mainRem s.mainPC s.defers + serveRem s.servePC + watchRem s.watchPC

/-! ## Sample runs -/

/-- Lines 35 to 60 of `main` run on their own: the flags are parsed, the
listener is bound, both tasks are launched, and `main` is at `wg.Wait()`. -/
def startup : List Action := List.replicate 11 .mainStep

/-- An error of `Accept` that is not temporary. -/
def acceptFailure : GoError :=
  .wrapped "accept tcp 127.0.0.1:9090" (.sentinel "invalid argument")

/-- The error of `Accept` on a listener that has been closed. -/
def closedConn : GoError := .sentinel "use of closed network connection"

/-- The error of `net.Listen` when the address is taken. -/
def addrInUse : GoError :=
  .sentinel "listen tcp 127.0.0.1:9090: bind: address already in use"

/-- A run in which `Accept` fails before the interrupt: the serving task
returns the failure, the interrupt comes later and lets the watcher finish. -/
def serveFailureRun : List Action :=
  startup ++ [.serveStep, .serveStep, .acceptErr acceptFailure, .serveStep, .interrupt,
    .watchStep, .watchStep, .watchStep, .watchStep, .mainStep, .mainStep]

/-- The state `serveFailureRun` ends in. -/
def serveFailureExit : State :=
  { start [] none with
    mainPC := .exited 1, servePC := .done, watchPC := .done
    err := some acceptFailure, listenArg := some "localhost:9090", bound := true
    lisCloses := 1, defers := [.stop, .lClose], notifyOn := true, ctxDone := true
    interrupted := true, rootArg := some ".", inShutdown := true, onceClosed := true
    closeReqs := 1, serveCalls := 1, serveRet := some acceptFailure
    acceptFail := some acceptFailure
    out := [.serveAt, .closing, .fatal (some acceptFailure)] }

/-- The state of `serveFailureRun` before the interrupt: `s.Serve` has returned
a failure, the serving task is done, `main` is at `wg.Wait()`. -/
def serveFailedWaiting : State :=
  { start [] none with
    mainPC := .wait, servePC := .done, watchPC := .waitCtx
    err := some acceptFailure, listenArg := some "localhost:9090", bound := true
    lisCloses := 1, defers := [.stop, .lClose], notifyOn := true
    rootArg := some ".", onceClosed := true
    serveCalls := 1, serveRet := some acceptFailure
    acceptFail := some acceptFailure, wg := 1
    out := [.serveAt] }

/-- A run in which `Accept` fails and no interrupt comes: the serving task
runs to its end, the watcher has not moved. -/
def serveFailsAloneRun : List Action :=
  startup ++ [.serveStep, .serveStep, .acceptErr acceptFailure, .serveStep]

/-- A run closed by the interrupt with no request in flight. -/
def signalCloseRun : List Action :=
  startup ++ [.serveStep, .serveStep, .interrupt, .watchStep, .watchStep, .watchStep,
    .watchStep, .acceptErr closedConn, .serveStep, .mainStep, .mainStep, .mainStep,
    .mainStep, .mainStep]

/-- The state `signalCloseRun` ends in. -/
def signalCloseExit : State :=
  { start [] none with
    mainPC := .exited 0, servePC := .done, watchPC := .done
    err := some ErrServerClosed, listenArg := some "localhost:9090", bound := true
    lisCloses := 2, ctxDone := true
    interrupted := true, rootArg := some ".", inShutdown := true, onceClosed := true
    closeReqs := 1, serveCalls := 1, serveRet := some ErrServerClosed
    out := [.serveAt, .closing] }

/-- A run up to the delivery of the interrupt, with one request accepted and
still in flight. -/
def inFlightRun : List Action :=
  startup ++ [.serveStep, .serveStep, .accept, .interrupt]

/-- The state `inFlightRun` ends in. -/
def inFlightState : State :=
  { start [] none with
    mainPC := .wait, servePC := .accepting, watchPC := .waitCtx
    listenArg := some "localhost:9090", bound := true, lisOpen := true
    defers := [.stop, .lClose], notifyOn := true, ctxDone := true
    interrupted := true, rootArg := some ".", tracked := true
    active := 1, serveCalls := 1, wg := 2
    out := [.serveAt] }

/-- The statements of the three tasks after the interrupt, up to the exit. -/
def shutdownRun : List Action :=
  [.watchStep, .watchStep, .watchStep, .watchStep, .acceptErr closedConn, .serveStep,
    .mainStep, .mainStep, .mainStep, .mainStep, .mainStep]

/-- The state `inFlightRun` followed by `shutdownRun` ends in. -/
def droppedExit : State :=
  { signalCloseExit with dropped := 1 }

/-- A run in which the watcher calls `s.Close()` before the serving task has
called `s.Serve(l)`. -/
def closeBeforeServeRun : List Action :=
  startup ++ [.interrupt, .watchStep, .watchStep, .watchStep, .watchStep, .serveStep,
    .serveStep, .serveStep, .mainStep, .mainStep, .mainStep, .mainStep, .mainStep]

/-- The state `closeBeforeServeRun` ends in. -/
def closeBeforeServeExit : State :=
  { signalCloseExit with out := [.closing, .serveAt] }

/-- The state after `net.Listen` failed and `main` called `log.Fatal`. -/
def bindFailedExit : State :=
  { start [] (some addrInUse) with
    mainPC := .exited 1, err := some addrInUse, listenArg := some "localhost:9090"
    out := [.fatal (some addrInUse)] }

/-- A command line that sets both flags. -/
def bothFlags : List String := ["-addr", ":8080", "-dir=/srv/doc"]

/-- The state after lines 35 to 49 on the command line `bothFlags`. -/
def serverBuilt : State :=
  { start bothFlags none with
    flags := { addr := ":8080", dir := "/srv/doc", actual := ["addr", "dir"], args := [] }
    mainPC := .addA, listenArg := some ":8080", bound := true, lisOpen := true
    defers := [.stop, .lClose], notifyOn := true, rootArg := some "/srv/doc" }

/-! ## The interrupt at any time -/

/-- The process with the interrupt deliverable at any time: the state of the
program, and whether the process was terminated by the signal. -/
structure Proc where
  st : State
  /-- the interrupt found no registration and ended the process (signal 2) -/
  killed : Bool
  deriving DecidableEq

/-- The process at the start of `main`. -/
def boot (args : List String) (bindErr : Option GoError) : Proc :=
  { st := start args bindErr, killed := false }

/-- The function `main` has ended the process, by returning or through
`log.Fatal` or `flag.Parse`. -/
def MainPC.isExited : MainPC → Bool
  | .exited _ => true
  | _ => false

/-- One transition of the process.  The interrupt goes to the notification of
`signal.NotifyContext` while it is registered (after line 44, before the
deferred `stop()`); outside of that it has its default disposition and ends
the process.  A process that has ended takes no transition. -/
def stepSig (p : Proc) (a : Action) : Option Proc :=
  if p.killed then none
  else
    match a with
    | .interrupt =>
      if p.st.mainPC.isExited then none
      else
        match step p.st .interrupt with
        | some s => some { p with st := s }
        | none => some { p with killed := true }
    | .mainStep | .serveStep | .accept | .acceptErr _ | .connDone | .watchStep =>
      match step p.st a with
      | some s => some { p with st := s }
      | none => none

/-- Run a schedule from a process; `none` when some action is not enabled. -/
def runSig (p : Proc) : List Action → Option Proc
  | [] => some p
  | a :: rest =>
    match stepSig p a with
    | none => none
    | some p2 => runSig p2 rest

/-- The processes a run of `main` can be in, with the interrupt deliverable at
any time. -/
def ReachableSig (args : List String) (bindErr : Option GoError) (p : Proc) : Prop :=
  ∃ sched : List Action, runSig (boot args bindErr) sched = some p

/-- A run in which the interrupt comes after `net.Listen` and before the
notification of line 44 is registered. -/
def earlyInterruptRun : List Action := [.mainStep, .mainStep, .mainStep, .interrupt]

/-- The process `earlyInterruptRun` ends in: ended by the signal at line 41. -/
def killedEarly : Proc :=
  { st := { start [] none with
      mainPC := .deferClose, listenArg := some "localhost:9090", bound := true
      lisOpen := true }
    killed := true }

/-- The process of `inFlightRun`: the interrupt has just been delivered to the
notification, one request is in flight. -/
def inFlightProc : Proc := { st := inFlightState, killed := false }

/-- The process of `serveFailureRun`: exited through `log.Fatal`. -/
def serveFailureProc : Proc := { st := serveFailureExit, killed := false }

/-- The run `inFlightRun` continued until the watcher is at line 64. -/
def closingRun : List Action := inFlightRun ++ [.watchStep, .watchStep]

/-- The run `closingRun` with the call `s.Close()` of the watcher added. -/
def closedRun : List Action := closingRun ++ [.watchStep]

/-- The state `closingRun` ends in: the watcher is about to call `s.Close()`. -/
def aboutToClose : State :=
  { inFlightState with watchPC := .close, out := [.serveAt, .closing] }

/-- The state after the watcher has called `s.Close()` in `aboutToClose`. -/
def justClosed : State :=
  { aboutToClose with
    watchPC := .wgDone, inShutdown := true, lisOpen := false, lisCloses := 1
    onceClosed := true, active := 0, dropped := 1, closeReqs := 1 }

/-! ## Package `flag` -/

theorem setFlag_args (fs : FlagSet) (n v : String) (rest : List String) :
    (setFlag fs n v rest).args = rest := by
  by_cases ha : n = "addr" <;> simp [setFlag, ha]

theorem setFlag_actual (fs : FlagSet) (n v : String) (rest : List String) :
    n ∈ (setFlag fs n v rest).actual ∧ ∀ m, m ∈ fs.actual → m ∈ (setFlag fs n v rest).actual := by
  have key : n ∈ (if n ∈ fs.actual then fs.actual else fs.actual ++ [n]) ∧
      ∀ m, m ∈ fs.actual → m ∈ (if n ∈ fs.actual then fs.actual else fs.actual ++ [n]) := by
    by_cases hn : n ∈ fs.actual
    · rw [if_pos hn]
      exact ⟨hn, fun m hm => hm⟩
    · rw [if_neg hn]
      exact ⟨by simp, fun m hm => List.mem_append_left _ hm⟩
  unfold setFlag
  split <;> exact key

theorem setFlag_addr (fs : FlagSet) (n v : String) (rest : List String) :
    (n = "addr" → (setFlag fs n v rest).addr = v ∧ (setFlag fs n v rest).dir = fs.dir) ∧
    (n = "dir" → (setFlag fs n v rest).dir = v ∧ (setFlag fs n v rest).addr = fs.addr) := by
  constructor
  · intro h
    simp [setFlag, h]
  · intro h
    have hne : ¬ n = "addr" := by
      rw [h]
      decide
    simp [setFlag, hne]

theorem parseNamed_seen {fs fs2 : FlagSet} {name : List Char} {rest : List String}
    (h : parseNamed fs name rest = .seen fs2) :
    fs2.args.length ≤ rest.length ∧
    (∀ m, m ∈ fs.actual → m ∈ fs2.actual) ∧
    (("addr" ∈ fs2.actual ∧ fs2.dir = fs.dir) ∨ ("dir" ∈ fs2.actual ∧ fs2.addr = fs.addr)) := by
  unfold parseNamed at h
  split at h
  · simp at h
  · split at h
    · simp at h
    · split at h
      · rename_i hnm
        split at h
        all_goals first | (simp at h; done) | skip
        all_goals
          simp only [ParseStep.seen.injEq] at h
          subst h
          rw [setFlag_args]
          refine ⟨by simp_all, (setFlag_actual _ _ _ _).2, ?_⟩
          rcases hnm with hnm | hnm
          · left
            exact ⟨hnm ▸ (setFlag_actual _ _ _ _).1, ((setFlag_addr _ _ _ _).1 hnm).2⟩
          · right
            exact ⟨hnm ▸ (setFlag_actual _ _ _ _).1, ((setFlag_addr _ _ _ _).2 hnm).2⟩
      · split at h <;> simp at h

theorem parseNamed_not_finished {fs fs2 : FlagSet} {name : List Char} {rest : List String} :
    parseNamed fs name rest ≠ .finished fs2 := by
  intro h
  unfold parseNamed at h
  split at h
  · simp at h
  · split at h
    · simp at h
    · split at h
      · split at h <;> simp at h
      · split at h <;> simp at h

/-- What one successful round of `parseOne` does: it consumes an argument and
assigns exactly one of the two variables, recording its name. -/
theorem parseOne_seen {fs fs2 : FlagSet} (h : parseOne fs = .seen fs2) :
    fs2.args.length < fs.args.length ∧
    (∀ m, m ∈ fs.actual → m ∈ fs2.actual) ∧
    (("addr" ∈ fs2.actual ∧ fs2.dir = fs.dir) ∨ ("dir" ∈ fs2.actual ∧ fs2.addr = fs.addr)) := by
  unfold parseOne at h
  split at h
  · simp at h
  · rename_i s rest hargs
    split at h
    · split at h
      · simp at h
      · obtain ⟨h1, h2, h3⟩ := parseNamed_seen h
        refine ⟨?_, h2, h3⟩
        rw [hargs]
        simp only [List.length_cons]
        omega
    · simp at h

/-- A round of `parseOne` that ends the parse leaves both variables and the
record of set flags as they are. -/
theorem parseOne_finished {fs fs2 : FlagSet} (h : parseOne fs = .finished fs2) :
    fs2.addr = fs.addr ∧ fs2.dir = fs.dir ∧ fs2.actual = fs.actual := by
  unfold parseOne at h
  split at h
  · simp only [ParseStep.finished.injEq] at h
    subst h
    simp
  · split at h
    · split at h
      · simp only [ParseStep.finished.injEq] at h
        subst h
        simp
      · exact absurd h parseNamed_not_finished
    · simp only [ParseStep.finished.injEq] at h
      subst h
      simp

/-- With more rounds than arguments the loop of `Parse` ends. -/
theorem parseLoop_total : ∀ (n : Nat) (fs : FlagSet), fs.args.length < n →
    ∃ r, parseLoop n fs = some r := by
  intro n
  induction n with
  | zero => intro fs h; omega
  | succ n ih =>
    intro fs h
    unfold parseLoop
    cases hp : parseOne fs with
    | seen fs2 =>
      have := (parseOne_seen hp).1
      exact ih fs2 (by omega)
    | finished fs2 => exact ⟨_, rfl⟩
    | failed help => exact ⟨_, rfl⟩

/-- The call `flag.Parse()` always returns or exits. -/
theorem flagParse_total (fs : FlagSet) : ∃ r, flagParse fs = some r :=
  parseLoop_total _ fs (Nat.lt_succ_self _)

/-- A variable whose flag is not recorded as set keeps the value it had. -/
theorem parseLoop_frame : ∀ (n : Nat) (fs fs2 : FlagSet), parseLoop n fs = some (.ok fs2) →
    (∀ m, m ∈ fs.actual → m ∈ fs2.actual) ∧
    ("addr" ∉ fs2.actual → fs2.addr = fs.addr) ∧ ("dir" ∉ fs2.actual → fs2.dir = fs.dir) := by
  intro n
  induction n with
  | zero => intro fs fs2 h; simp [parseLoop] at h
  | succ n ih =>
    intro fs fs2 h
    unfold parseLoop at h
    cases hp : parseOne fs with
    | seen fs1 =>
      simp only [hp] at h
      obtain ⟨h1, h2, h3⟩ := ih fs1 fs2 h
      obtain ⟨_, p2, p3⟩ := parseOne_seen hp
      refine ⟨fun m hm => h1 m (p2 m hm), ?_, ?_⟩
      · intro hna
        rcases p3 with ⟨pa, _⟩ | ⟨_, pd⟩
        · exact absurd (h1 _ pa) hna
        · rw [h2 hna, pd]
      · intro hnd
        rcases p3 with ⟨_, pa⟩ | ⟨pd, _⟩
        · rw [h3 hnd, pa]
        · exact absurd (h1 _ pd) hnd
    | finished fs1 =>
      simp only [hp, Option.some.injEq, ParseResult.ok.injEq] at h
      subst h
      obtain ⟨q1, q2, q3⟩ := parseOne_finished hp
      exact ⟨fun m hm => q3 ▸ hm, fun _ => q1, fun _ => q2⟩
    | failed help => simp [hp] at h

/-! ## The invariant is kept -/

theorem inv_start (args : List String) (b : Option GoError) : Inv (start args b) := by
  constructor <;> simp [Doc.start, mainFacts, lCloseRan, launchedA, launchedB, joined, pendingAdd, ServePC.live, ServePC.returned, ServePC.called, WatchPC.live, WatchPC.woken, WatchPC.closed]

theorem facts_frame {pc : MainPC} {bound : Bool} {err bindErr : Option GoError}
    {listenArg : Option String} {addr : String} {out : List LogLine}
    {defers : List Deferred} {notifyOn : Bool} {rootArg : Option String}
    (err2 : Option GoError) (out2 : List LogLine)
    (h : mainFacts pc bound err bindErr listenArg addr out defers notifyOn rootArg)
    (hA : launchedA pc bound = true) (hJ : joined pc bound = false) :
    mainFacts pc bound err2 bindErr listenArg addr out2 defers notifyOn rootArg := by
  cases pc <;> simp_all [mainFacts, launchedA, joined]

theorem inv_interrupt {s s2 : State} (h : step s .interrupt = some s2) (inv : Inv s) : Inv s2 := by
  obtain ⟨i1, i2, i3, i4, i5, i6, i7, i8, i9, i10, i11, i12, i13, i14, i15, i16, i17, i18, i19, i20, i21, i22, i23, i24⟩ := inv
  cases s
  simp only [step] at h
  split at h
  · simp only [Option.some.injEq] at h
    subst h
    try dsimp only at *
    constructor
    all_goals first | assumption | skip
    all_goals simp_all
  · simp at h

set_option maxHeartbeats 1000000 in
theorem inv_main {s s2 : State} (h : step s .mainStep = some s2) (inv : Inv s) : Inv s2 := by
  obtain ⟨i1, i2, i3, i4, i5, i6, i7, i8, i9, i10, i11, i12, i13, i14, i15, i16, i17, i18, i19, i20, i21, i22, i23, i24⟩ := inv
  cases s
  rename_i bindErr flags mainPC servePC watchPC err listenArg bound lisOpen lisCloses defers notifyOn ctxDone interrupted rootArg inShutdown tracked onceClosed active served dropped closeReqs serveCalls serveRet acceptFail wg out
  simp only [step, mainStep] at h
  cases mainPC
  case wait =>
    dsimp only at h
    split at h
    · rename_i hw
      simp only [Option.some.injEq] at h
      subst h
      dsimp only at *
      subst hw
      simp only [pendingAdd] at i1
      have hA : servePC.live = 0 := by omega
      have hB : watchPC.live = 0 := by omega
      have hb : bound = true := i5.1
      subst hb
      clear i1 i4
      cases servePC <;> simp [ServePC.live, launchedA] at hA i2
      cases watchPC <;> simp [WatchPC.live, launchedB] at hB i3
      clear hA hB i2 i3
      simp [mainFacts, lCloseRan, launchedA, launchedB, joined, pendingAdd, ServePC.live, ServePC.returned, ServePC.called, WatchPC.live, WatchPC.woken, WatchPC.closed] at i5 i6 i7 i8 i9 i10 i11 i12 i13 i14 i15 i16 i17 i18 i19 i20 i21 i22 i23 i24
      constructor
      all_goals first | assumption | skip
      all_goals simp [mainFacts, lCloseRan, launchedA, launchedB, joined, pendingAdd, ServePC.live, ServePC.returned, ServePC.called, WatchPC.live, WatchPC.woken, WatchPC.closed]
      all_goals first | assumption | simp [*]
    · simp at h
  case returning =>
    dsimp only at h
    split at h
    · simp only [Option.some.injEq] at h
      subst h
      dsimp only at *
      constructor
      all_goals first | assumption | skip
      all_goals simp_all [mainFacts, lCloseRan, launchedA, launchedB, joined, pendingAdd, ServePC.live, ServePC.returned, ServePC.called, WatchPC.live, WatchPC.woken, WatchPC.closed]
    · rename_i d rest
      simp only [Option.some.injEq] at h
      subst h
      dsimp only at *
      cases d
      all_goals
        simp only [runDeferred]
        constructor
      all_goals first | assumption | skip
      all_goals simp_all [mainFacts, lCloseRan, launchedA, launchedB, joined, pendingAdd, ServePC.live, ServePC.returned, ServePC.called, WatchPC.live, WatchPC.woken, WatchPC.closed]
  case checkBind =>
    dsimp only at *
    obtain ⟨f1, f2, f3, f4, f5, f6, f7⟩ := i5
    subst f2 f3 f4 f5 f6
    cases err
    · simp only [Option.isSome_none, Bool.false_eq_true, if_false, Option.some.injEq] at h
      subst h
      simp at f1
      subst f1
      constructor
      all_goals first | assumption | skip
      all_goals simp_all [mainFacts, lCloseRan, launchedA, launchedB, joined, pendingAdd, ServePC.live, ServePC.returned, ServePC.called, WatchPC.live, WatchPC.woken, WatchPC.closed]
    · simp only [Option.isSome_some, if_true, Option.some.injEq, logFatal] at h
      subst h
      simp at f1
      subst f1
      constructor
      all_goals first | assumption | skip
      all_goals simp_all [mainFacts, lCloseRan, launchedA, launchedB, joined, pendingAdd, ServePC.live, ServePC.returned, ServePC.called, WatchPC.live, WatchPC.woken, WatchPC.closed]
  all_goals dsimp only at h
  all_goals (repeat' split at h)
  all_goals first | (simp at h; done) | skip
  all_goals
    simp only [Option.some.injEq, logFatal, runDeferred] at h
    subst h
    try dsimp only at *
    constructor
  all_goals first | assumption | skip
  all_goals simp_all [mainFacts, lCloseRan, launchedA, launchedB, joined, pendingAdd, ServePC.live, ServePC.returned, ServePC.called, WatchPC.live, WatchPC.woken, WatchPC.closed]

set_option maxHeartbeats 1000000 in
theorem inv_serve {s s2 : State} (h : step s .serveStep = some s2) (inv : Inv s) : Inv s2 := by
  obtain ⟨i1, i2, i3, i4, i5, i6, i7, i8, i9, i10, i11, i12, i13, i14, i15, i16, i17, i18, i19, i20, i21, i22, i23, i24⟩ := inv
  cases s
  rename_i bindErr flags mainPC servePC watchPC err listenArg bound lisOpen lisCloses defers notifyOn ctxDone interrupted rootArg inShutdown tracked onceClosed active served dropped closeReqs serveCalls serveRet acceptFail wg out
  simp only [step, serveStep] at h
  cases servePC
  all_goals dsimp only at h
  all_goals (repeat' split at h)
  all_goals first | (simp at h; done) | skip
  all_goals
    simp only [Option.some.injEq, serveReturn] at h
    subst h
    try dsimp only at *
    have hA : launchedA mainPC bound = true := by
      cases hl : launchedA mainPC bound
      · simp [hl] at i2
      · rfl
  all_goals
    constructor
  all_goals first | assumption | skip
  all_goals first
    | (refine facts_frame _ _ i5 hA ?_
       cases hj : joined mainPC bound
       · rfl
       · simp [hj] at i4)
    | (simp_all [ServePC.live, ServePC.returned, ServePC.called] <;> first | assumption | omega)

set_option maxHeartbeats 1000000 in
theorem inv_watch {s s2 : State} (h : step s .watchStep = some s2) (inv : Inv s) : Inv s2 := by
  obtain ⟨i1, i2, i3, i4, i5, i6, i7, i8, i9, i10, i11, i12, i13, i14, i15, i16, i17, i18, i19, i20, i21, i22, i23, i24⟩ := inv
  cases s
  rename_i bindErr flags mainPC servePC watchPC err listenArg bound lisOpen lisCloses defers notifyOn ctxDone interrupted rootArg inShutdown tracked onceClosed active served dropped closeReqs serveCalls serveRet acceptFail wg out
  simp only [step, watchStep] at h
  cases watchPC
  case close =>
    simp only [Option.some.injEq, serverClose] at h
    subst h
    dsimp only at *
    have hB : launchedB mainPC bound = true := by
      cases hl : launchedB mainPC bound
      · simp [hl] at i3
      · rfl
    have hA : launchedA mainPC bound = true := by
      cases mainPC <;> simp_all [launchedA, launchedB]
    cases servePC
    all_goals
      constructor
    all_goals first | assumption | skip
    all_goals first
      | (refine facts_frame _ _ i5 hA ?_
         cases hj : joined mainPC bound
         · rfl
         · simp [hj] at i4)
      | (simp_all [WatchPC.live, WatchPC.woken, WatchPC.closed, ServePC.live, ServePC.returned,
          ServePC.called] <;> first | assumption | omega)
  all_goals dsimp only at h
  all_goals (repeat' split at h)
  all_goals first | (simp at h; done) | skip
  all_goals
    simp only [Option.some.injEq, serverClose] at h
    subst h
    try dsimp only at *
    have hB : launchedB mainPC bound = true := by
      cases hl : launchedB mainPC bound
      · simp [hl] at i3
      · rfl
    have hA : launchedA mainPC bound = true := by
      cases mainPC <;> simp_all [launchedA, launchedB]
  all_goals
    constructor
  all_goals first | assumption | skip
  all_goals first
    | (refine facts_frame _ _ i5 hA ?_
       cases hj : joined mainPC bound
       · rfl
       · simp [hj] at i4)
    | (simp_all [WatchPC.live, WatchPC.woken, WatchPC.closed] <;> first | assumption | omega)

set_option maxHeartbeats 1000000 in
theorem inv_env {s s2 : State} {a : Action} (ha : a = .accept ∨ a = .connDone)
    (h : step s a = some s2) (inv : Inv s) : Inv s2 := by
  obtain ⟨i1, i2, i3, i4, i5, i6, i7, i8, i9, i10, i11, i12, i13, i14, i15, i16, i17, i18, i19, i20, i21, i22, i23, i24⟩ := inv
  cases s
  rename_i bindErr flags mainPC servePC watchPC err listenArg bound lisOpen lisCloses defers notifyOn ctxDone interrupted rootArg inShutdown tracked onceClosed active served dropped closeReqs serveCalls serveRet acceptFail wg out
  rcases ha with rfl | rfl
  all_goals
    simp only [step] at h
    split at h
  all_goals first | (simp at h; done) | skip
  all_goals
    simp only [Option.some.injEq] at h
    subst h
    try dsimp only at *
    constructor
  all_goals first | assumption | skip
  all_goals simp_all

set_option maxHeartbeats 1000000 in
theorem inv_acceptErr {s s2 : State} {e : GoError}
    (h : step s (.acceptErr e) = some s2) (inv : Inv s) : Inv s2 := by
  obtain ⟨i1, i2, i3, i4, i5, i6, i7, i8, i9, i10, i11, i12, i13, i14, i15, i16, i17, i18, i19, i20, i21, i22, i23, i24⟩ := inv
  cases s
  rename_i bindErr flags mainPC servePC watchPC err listenArg bound lisOpen lisCloses defers notifyOn ctxDone interrupted rootArg inShutdown tracked onceClosed active served dropped closeReqs serveCalls serveRet acceptFail wg out
  simp only [step] at h
  split at h
  · rename_i hacc
    try dsimp only at hacc
    subst hacc
    split at h
    all_goals
      simp only [Option.some.injEq, serveReturn] at h
      subst h
      try dsimp only at *
      have hA : launchedA mainPC bound = true := by
        cases hl : launchedA mainPC bound
        · simp [hl] at i2
        · rfl
    all_goals
      constructor
    all_goals first | assumption | skip
    all_goals first
      | (refine facts_frame _ _ i5 hA ?_
         cases hj : joined mainPC bound
         · rfl
         · simp [hj] at i4)
      | (simp_all [ServePC.live, ServePC.returned, ServePC.called] <;> first | assumption | omega)
  · simp at h

theorem inv_step {s s2 : State} {a : Action} (h : step s a = some s2) (inv : Inv s) : Inv s2 := by
  cases a
  · exact inv_main h inv
  · exact inv_serve h inv
  · exact inv_env (Or.inl rfl) h inv
  · exact inv_acceptErr h inv
  · exact inv_env (Or.inr rfl) h inv
  · exact inv_watch h inv
  · exact inv_interrupt h inv

theorem inv_run {sched : List Action} : ∀ {s s2 : State}, run s sched = some s2 → Inv s → Inv s2 := by
  induction sched with
  | nil =>
    intro s s2 h inv
    simp only [run, Option.some.injEq] at h
    exact h ▸ inv
  | cons a rest ih =>
    intro s s2 h inv
    simp only [run] at h
    cases hs : step s a with
    | none => simp [hs] at h
    | some s1 =>
      simp only [hs] at h
      exact ih h (inv_step hs inv)

theorem inv_reachable {args : List String} {b : Option GoError} {s : State}
    (h : Reachable args b s) : Inv s := by
  obtain ⟨sched, hr⟩ := h
  exact inv_run hr (inv_start args b)

/-! ## Runs and progress -/

theorem run_cons {s s1 : State} {a : Action} (h : step s a = some s1) (rest : List Action) :
    run s (a :: rest) = run s1 rest := by
  simp [run, h]

theorem run_append : ∀ (l1 l2 : List Action) (s s1 : State), run s l1 = some s1 →
    run s (l1 ++ l2) = run s1 l2 := by
  intro l1
  induction l1 with
  | nil =>
    intro l2 s s1 h
    simp only [run, Option.some.injEq] at h
    subst h
    rfl
  | cons a rest ih =>
    intro l2 s s1 h
    simp only [run] at h
    cases hs : step s a with
    | none => simp [hs] at h
    | some s0 =>
      simp only [hs] at h
      simp only [List.cons_append, run, hs]
      exact ih l2 s0 s1 h

theorem reachable_run {args : List String} {b : Option GoError} {s s2 : State}
    {sched : List Action} (h : Reachable args b s) (hr : run s sched = some s2) :
    Reachable args b s2 := by
  obtain ⟨l, hl⟩ := h
  exact ⟨l ++ sched, by rw [run_append l sched _ s hl, hr]⟩

set_option maxHeartbeats 1000000 in
/-- Once the interrupt is delivered, and as long as `Accept` does not fail on
its own, some task can take its next statement. -/
theorem progress {s : State} (inv : Inv s) (hi : s.interrupted = true)
    (hf : s.acceptFail = none) (hx : ∀ c, s.mainPC ≠ .exited c) :
    ∃ a s2, step s a = some s2 ∧ remaining s2 < remaining s ∧ s2.interrupted = true ∧
      s2.acceptFail = none := by
  obtain ⟨wgCount, aIdle, bIdle, join, facts, bindOk, root, woken, ctx, intr, notif, intCtx,
    fatalOut, closeCnt, shut, callCnt, track, ret, notRet, once, onceAcc, lis, closes,
    drained⟩ := inv
  cases s
  rename_i bindErr flags mainPC servePC watchPC err listenArg bound lisOpen lisCloses defers notifyOn ctxDone interrupted rootArg inShutdown tracked onceClosed active served dropped closeReqs serveCalls serveRet acceptFail wg out
  dsimp only at *
  subst hi hf
  have hb : bound = true := intr rfl
  subst hb
  have hc : ctxDone = true := intCtx rfl
  subst hc
  cases mainPC
  case exited c => exact absurd rfl (hx c)
  case parse => simp [mainFacts] at facts
  case listen => simp [mainFacts] at facts
  case wait =>
    cases watchPC
    case idle => simp [launchedB] at bIdle
    case done =>
      simp only [WatchPC.closed] at shut
      subst shut
      cases servePC
      case idle => simp [launchedA] at aIdle
      case accepting =>
        refine ⟨.acceptErr ErrServerClosed, ?_⟩
        simp only [step, if_true]
        refine ⟨_, rfl, ?_, ?_, ?_⟩ <;> simp [remaining, serveReturn, serveRem]
      case done =>
        simp only [ServePC.live, WatchPC.live, pendingAdd] at wgCount
        subst wgCount
        refine ⟨.mainStep, ?_⟩
        simp only [step, mainStep, if_true]
        refine ⟨_, rfl, ?_, ?_, ?_⟩ <;> simp [remaining, mainRem]
      all_goals
        refine ⟨.serveStep, ?_⟩
        simp only [step, serveStep, if_true]
        refine ⟨_, rfl, ?_, ?_, ?_⟩ <;> simp [remaining, serveReturn, serveRem]
    all_goals
      refine ⟨.watchStep, ?_⟩
      simp only [step, watchStep, if_true]
      refine ⟨_, rfl, ?_, ?_, ?_⟩ <;> simp [remaining, serverClose, watchRem]
  case returning =>
    cases defers with
    | nil =>
      refine ⟨.mainStep, _, rfl, ?_, rfl, rfl⟩
      simp [remaining, mainRem]
    | cons d rest =>
      refine ⟨.mainStep, _, rfl, ?_, ?_, ?_⟩
      all_goals cases d <;> simp [remaining, mainRem, runDeferred]
  case classify =>
    have hA := (join rfl).1
    subst hA
    have hr := ret rfl
    simp at hr
    obtain ⟨h1, h2, h3⟩ := hr
    subst h1
    subst h3
    simp only [mainFacts] at facts
    refine ⟨.mainStep, ?_⟩
    simp only [step, mainStep]
    rw [if_pos (by decide)]
    refine ⟨_, rfl, ?_, ?_, ?_⟩ <;> simp [remaining, mainRem, facts.2.1]
  case checkBind =>
    simp [mainFacts] at facts
    have he := facts.1
    subst he
    refine ⟨.mainStep, ?_⟩
    simp only [step, mainStep, Option.isSome_none, Bool.false_eq_true, if_false]
    refine ⟨_, rfl, ?_, ?_, ?_⟩ <;> simp [remaining, mainRem]
  all_goals
    refine ⟨.mainStep, _, rfl, ?_, rfl, rfl⟩
    simp [remaining, mainRem, serveRem, watchRem]
    try simp_all [launchedA, launchedB, serveRem, watchRem]

/-- From a state in which the interrupt has been delivered and `Accept` has not
failed on its own, the tasks can be run to the exit of the process. -/
theorem exit_reachable : ∀ (n : Nat) (s : State), remaining s ≤ n → Inv s →
    s.interrupted = true → s.acceptFail = none →
    ∃ sched s2, run s sched = some s2 ∧ (∃ c, s2.mainPC = .exited c) ∧
      s2.interrupted = true ∧ s2.acceptFail = none := by
  intro n
  induction n with
  | zero =>
    intro s hn inv hi hf
    by_cases hx : ∃ c, s.mainPC = .exited c
    · exact ⟨[], s, rfl, hx, hi, hf⟩
    · obtain ⟨a, s2, _, hlt, _, _⟩ := progress inv hi hf (fun c hc => hx ⟨c, hc⟩)
      omega
  | succ n ih =>
    intro s hn inv hi hf
    by_cases hx : ∃ c, s.mainPC = .exited c
    · exact ⟨[], s, rfl, hx, hi, hf⟩
    · obtain ⟨a, s1, hs, hlt, hi1, hf1⟩ := progress inv hi hf (fun c hc => hx ⟨c, hc⟩)
      obtain ⟨sched, s2, hr, hx2, hi2, hf2⟩ :=
        ih s1 (by omega) (inv_step hs inv) hi1 hf1
      exact ⟨a :: sched, s2, by rw [run_cons hs]; exact hr, hx2, hi2, hf2⟩

/-- After the join, the variable `err` holds what `s.Serve` returned, and the
exit status follows from it. -/
theorem exit_facts {s : State} (inv : Inv s) {c : Nat} (hx : s.mainPC = .exited c)
    (hb : s.bound = true) :
    s.servePC = .done ∧ s.watchPC = .done ∧ s.err = s.serveRet ∧ s.serveRet.isSome = true ∧
    ((c = 0 ∧ errorsIs s.err (some ErrServerClosed) = true ∧ s.defers = []) ∨
     (c = 1 ∧ errorsIs s.err (some ErrServerClosed) = false ∧ s.defers = [.stop, .lClose] ∧
        s.out.getLast? = some (.fatal s.err))) := by
  obtain ⟨wgCount, aIdle, bIdle, join, facts, bindOk, root, woken, ctx, intr, notif, intCtx,
    fatalOut, closeCnt, shut, callCnt, track, ret, notRet, once, onceAcc, lis, closes,
    drained⟩ := inv
  have hj := join (by rw [hx, hb]; rfl)
  have hr := ret (by rw [hj.1]; rfl)
  refine ⟨hj.1, hj.2, hr.1, ?_, ?_⟩
  · rcases hr.2.2 with h | h
    · rw [h.1]; rfl
    · rw [h.1]; exact h.2
  · rw [hx, hb] at facts
    simp only [mainFacts, if_true] at facts
    rcases facts with ⟨f1, f2, f3, _⟩ | ⟨f1, f2, f3, _, f5⟩
    · exact Or.inl ⟨f1, f2, f3⟩
    · exact Or.inr ⟨f1, f2, f3, f5⟩

theorem flagInv_step {args : List String} {s s2 : State} {a : Action}
    (h : step s a = some s2) (fi : FlagInv args s) : FlagInv args s2 := by
  cases s
  rename_i bindErr flags mainPC servePC watchPC err listenArg bound lisOpen lisCloses defers notifyOn ctxDone interrupted rootArg inShutdown tracked onceClosed active served dropped closeReqs serveCalls serveRet acceptFail wg out
  cases a
  case mainStep =>
    simp only [step, mainStep] at h
    cases mainPC
    case parse =>
      simp only [FlagInv, if_true] at fi
      obtain ⟨fi, fl, fr⟩ := fi
      subst fi fl fr
      dsimp only at h
      split at h
      · simp at h
      · rename_i fs hp
        simp only [Option.some.injEq] at h
        subst h
        simp [FlagInv, hp]
      · simp only [Option.some.injEq] at h
        subst h
        simp [FlagInv]
    case returning =>
      dsimp only at h
      split at h
      · simp only [Option.some.injEq] at h
        subst h
        simp_all [FlagInv]
      · rename_i d rest
        simp only [Option.some.injEq] at h
        subst h
        cases d <;> simp_all [FlagInv, runDeferred]
    all_goals dsimp only at h
    all_goals (repeat' split at h)
    all_goals first | (simp at h; done) | skip
    all_goals
      simp only [Option.some.injEq, logFatal] at h
      subst h
      simp_all [FlagInv]
  case serveStep =>
    simp only [step, serveStep] at h
    cases servePC
    all_goals dsimp only at h
    all_goals (repeat' split at h)
    all_goals first | (simp at h; done) | skip
    all_goals
      simp only [Option.some.injEq, serveReturn] at h
      subst h
      exact fi
  case watchStep =>
    simp only [step, watchStep] at h
    cases watchPC
    all_goals dsimp only at h
    all_goals (repeat' split at h)
    all_goals first | (simp at h; done) | skip
    all_goals
      simp only [Option.some.injEq, serverClose] at h
      subst h
      exact fi
  all_goals
    simp only [step] at h
    (repeat' split at h)
  all_goals first | (simp at h; done) | skip
  all_goals
    simp only [Option.some.injEq, serveReturn] at h
    subst h
    exact fi

theorem flagInv_run {args : List String} {sched : List Action} :
    ∀ {s s2 : State}, run s sched = some s2 → FlagInv args s → FlagInv args s2 := by
  induction sched with
  | nil =>
    intro s s2 h fi
    simp only [run, Option.some.injEq] at h
    exact h ▸ fi
  | cons a rest ih =>
    intro s s2 h fi
    simp only [run] at h
    cases hs : step s a with
    | none => simp [hs] at h
    | some s1 =>
      simp only [hs] at h
      exact ih h (flagInv_step hs fi)

theorem flagInv_reachable {args : List String} {b : Option GoError} {s : State}
    (h : Reachable args b s) : FlagInv args s := by
  obtain ⟨sched, hr⟩ := h
  exact flagInv_run hr (by simp [FlagInv, start])

/-- The arguments of `net.Listen` and `http.Dir` are the variables the parse
left. -/
theorem args_passed {args : List String} {b : Option GoError} {s : State}
    (h : Reachable args b s) (hl : s.listenArg.isSome = true ∨ s.rootArg.isSome = true) :
    flagParse (init args) = some (.ok s.flags) ∧
    (s.listenArg.isSome = true → s.listenArg = some s.flags.addr) ∧
    (s.rootArg.isSome = true → s.rootArg = some s.flags.dir) := by
  have fi := flagInv_reachable h
  obtain ⟨wgCount, aIdle, bIdle, join, facts, bindOk, root, woken, ctx, intr, notif, intCtx,
    fatalOut, closeCnt, shut, callCnt, track, ret, notRet, once, onceAcc, lis, closes,
    drained⟩ := inv_reachable h
  unfold FlagInv at fi
  split at fi
  · rename_i hp
    rw [hp] at facts
    simp only [mainFacts] at facts
    obtain ⟨_, _, f3, _, _, _, f7⟩ := facts
    rw [f3, f7] at hl
    simp at hl
  · rcases fi with ⟨f1, f2, _⟩ | fi
    · rw [f1, f2] at hl
      simp at hl
    · refine ⟨fi, ?_, ?_⟩
      · intro hs
        cases hm : s.mainPC <;> rw [hm] at facts <;> simp only [mainFacts] at facts
        case exited c =>
          split at facts
          · rename_i hb
            exact (bindOk hb).2
          · rcases facts.2.2.2 with f | f
            · rw [f.1] at hs
              simp at hs
            · exact f.2.1
        case parse => rw [facts.2.2.1] at hs; simp at hs
        case listen => rw [facts.2.2.1] at hs; simp at hs
        case checkBind => exact facts.2.2.2.2.2.2
        all_goals exact (bindOk facts.1).2
      · intro hs
        rcases root with r | r
        · rw [r] at hs
          simp at hs
        · exact r

/-! ## The process under the interrupt at any time -/

/-- What a transition of the process is: a transition of the program, or the
interrupt ending the process where no notification is registered. -/
theorem stepSig_cases {p p2 : Proc} {a : Action} (h : stepSig p a = some p2) :
    p.killed = false ∧
    ((p2.killed = false ∧ step p.st a = some p2.st) ∨
     (a = .interrupt ∧ p2.st = p.st ∧ p2.killed = true ∧ p.st.notifyOn = false ∧
        p.st.mainPC.isExited = false)) := by
  unfold stepSig at h
  split at h
  · simp at h
  · rename_i hk
    have hk2 : p.killed = false := by
      cases hp : p.killed
      · rfl
      · exact absurd hp hk
    refine ⟨hk2, ?_⟩
    split at h
    · split at h
      · simp at h
      · rename_i hx
        split at h
        · rename_i s hs
          simp only [Option.some.injEq] at h
          subst h
          exact Or.inl ⟨hk2, hs⟩
        · rename_i hs
          simp only [Option.some.injEq] at h
          subst h
          refine Or.inr ⟨rfl, rfl, rfl, ?_, ?_⟩
          · simp only [step] at hs
            cases hn : p.st.notifyOn
            · rfl
            · simp [hn] at hs
          · cases hp : p.st.mainPC.isExited
            · rfl
            · exact absurd hp hx
    all_goals
      split at h
      · rename_i s hs
        simp only [Option.some.injEq] at h
        subst h
        exact Or.inl ⟨hk2, hs⟩
      · simp at h

theorem reachable_step {args : List String} {b : Option GoError} {s s2 : State} {a : Action}
    (h : Reachable args b s) (hs : step s a = some s2) : Reachable args b s2 :=
  reachable_run h (show run s [a] = some s2 by simp [run, hs])

/-- Every process of a run holds a reachable state of the program, and the
interrupt ends the process only where no notification is registered. -/
theorem runSig_sound {args : List String} {b : Option GoError} {sched : List Action} :
    ∀ {p p2 : Proc}, runSig p sched = some p2 → Reachable args b p.st →
      (p.killed = true → p.st.notifyOn = false ∧ p.st.mainPC.isExited = false) →
      Reachable args b p2.st ∧
      (p2.killed = true → p2.st.notifyOn = false ∧ p2.st.mainPC.isExited = false) := by
  induction sched with
  | nil =>
    intro p p2 h hr hk
    simp only [runSig, Option.some.injEq] at h
    subst h
    exact ⟨hr, hk⟩
  | cons a rest ih =>
    intro p p2 h hr hk
    simp only [runSig] at h
    cases hs : stepSig p a with
    | none => simp [hs] at h
    | some p1 =>
      simp only [hs] at h
      obtain ⟨_, hc⟩ := stepSig_cases hs
      rcases hc with ⟨k1, st1⟩ | ⟨_, st1, _, n1, x1⟩
      · exact ih h (reachable_step hr st1) (fun hk1 => by rw [k1] at hk1; exact absurd hk1 (by decide))
      · exact ih h (st1 ▸ hr) (fun _ => by rw [st1]; exact ⟨n1, x1⟩)

theorem reachableSig_sound {args : List String} {b : Option GoError} {p : Proc}
    (h : ReachableSig args b p) :
    Reachable args b p.st ∧
    (p.killed = true → p.st.notifyOn = false ∧ p.st.mainPC.isExited = false) := by
  obtain ⟨sched, hr⟩ := h
  exact runSig_sound hr ⟨[], rfl⟩ (fun hk => by simp [boot] at hk)

/-- A run of the program without the interrupt is a run of the process. -/
theorem runSig_of_run : ∀ (sched : List Action) (s s2 : State), run s sched = some s2 →
    (∀ a, a ∈ sched → a ≠ .interrupt) →
    runSig { st := s, killed := false } sched = some { st := s2, killed := false } := by
  intro sched
  induction sched with
  | nil =>
    intro s s2 h _
    simp only [run, Option.some.injEq] at h
    subst h
    rfl
  | cons a rest ih =>
    intro s s2 h hn
    simp only [run] at h
    cases hs : step s a with
    | none => simp [hs] at h
    | some s1 =>
      simp only [hs] at h
      have ha : a ≠ .interrupt := hn a (List.mem_cons_self _ _)
      have hstep : stepSig { st := s, killed := false } a = some { st := s1, killed := false } := by
        cases a <;> first | exact absurd rfl ha | simp [stepSig, hs]
      simp only [runSig, hstep]
      exact ih s1 s2 h (fun x hx => hn x (List.mem_cons_of_mem _ hx))

set_option maxHeartbeats 1000000 in
/-- Once the interrupt is delivered some task can take its next statement,
whatever `s.Serve` has returned. -/
theorem progress_any {s : State} (inv : Inv s) (hi : s.interrupted = true)
    (hx : ∀ c, s.mainPC ≠ .exited c) :
    ∃ a s2, step s a = some s2 ∧ a ≠ .interrupt ∧ remaining s2 < remaining s ∧
      s2.interrupted = true ∧ s2.acceptFail = s.acceptFail := by
  obtain ⟨wgCount, aIdle, bIdle, join, facts, bindOk, root, woken, ctx, intr, notif, intCtx,
    fatalOut, closeCnt, shut, callCnt, track, ret, notRet, once, onceAcc, lis, closes,
    drained⟩ := inv
  cases s
  rename_i bindErr flags mainPC servePC watchPC err listenArg bound lisOpen lisCloses defers notifyOn ctxDone interrupted rootArg inShutdown tracked onceClosed active served dropped closeReqs serveCalls serveRet acceptFail wg out
  dsimp only at *
  subst hi
  have hb : bound = true := intr rfl
  subst hb
  have hc : ctxDone = true := intCtx rfl
  subst hc
  cases mainPC
  case exited c => exact absurd rfl (hx c)
  case parse => simp [mainFacts] at facts
  case listen => simp [mainFacts] at facts
  case wait =>
    cases watchPC
    case idle => simp [launchedB] at bIdle
    case done =>
      simp only [WatchPC.closed] at shut
      subst shut
      cases servePC
      case idle => simp [launchedA] at aIdle
      case accepting =>
        refine ⟨.acceptErr ErrServerClosed, ?_⟩
        simp only [step, if_true]
        refine ⟨_, rfl, ?_, ?_, ?_, ?_⟩ <;> simp [remaining, serveReturn, serveRem]
      case done =>
        simp only [ServePC.live, WatchPC.live, pendingAdd] at wgCount
        subst wgCount
        refine ⟨.mainStep, ?_⟩
        simp only [step, mainStep, if_true]
        refine ⟨_, rfl, ?_, ?_, ?_, ?_⟩ <;> simp [remaining, mainRem]
      all_goals
        refine ⟨.serveStep, ?_⟩
        simp only [step, serveStep, if_true]
        refine ⟨_, rfl, ?_, ?_, ?_, ?_⟩ <;> simp [remaining, serveReturn, serveRem]
    all_goals
      refine ⟨.watchStep, ?_⟩
      simp only [step, watchStep, if_true]
      refine ⟨_, rfl, ?_, ?_, ?_, ?_⟩ <;> simp [remaining, serverClose, watchRem]
  case returning =>
    cases defers with
    | nil =>
      refine ⟨.mainStep, _, rfl, by simp, ?_, rfl, rfl⟩
      simp [remaining, mainRem]
    | cons d rest =>
      refine ⟨.mainStep, _, rfl, by simp, ?_, ?_, ?_⟩
      all_goals cases d <;> simp [remaining, mainRem, runDeferred]
  case classify =>
    simp only [mainFacts] at facts
    refine ⟨.mainStep, ?_⟩
    simp only [step, mainStep]
    cases he : errorsIs err (some ErrServerClosed)
    · simp only [Bool.false_eq_true, if_false]
      refine ⟨_, rfl, ?_, ?_, ?_, ?_⟩ <;> simp [remaining, mainRem, logFatal]
    · simp only [if_true]
      refine ⟨_, rfl, ?_, ?_, ?_, ?_⟩ <;> simp [remaining, mainRem, facts.2.1]
  case checkBind =>
    simp [mainFacts] at facts
    have he := facts.1
    subst he
    refine ⟨.mainStep, ?_⟩
    simp only [step, mainStep, Option.isSome_none, Bool.false_eq_true, if_false]
    refine ⟨_, rfl, ?_, ?_, ?_, ?_⟩ <;> simp [remaining, mainRem]
  all_goals
    refine ⟨.mainStep, _, rfl, by simp, ?_, rfl, rfl⟩
    simp [remaining, mainRem, serveRem, watchRem]
    try simp_all [launchedA, launchedB, serveRem, watchRem]

/-- From a state in which the interrupt has been delivered the tasks can be run
to the exit of `main` by their own statements. -/
theorem exit_reachable_any : ∀ (n : Nat) (s : State), remaining s ≤ n → Inv s →
    s.interrupted = true →
    ∃ sched s2, run s sched = some s2 ∧ (∀ a, a ∈ sched → a ≠ .interrupt) ∧
      (∃ c, s2.mainPC = .exited c) ∧ s2.interrupted = true ∧
      s2.acceptFail = s.acceptFail := by
  intro n
  induction n with
  | zero =>
    intro s hn inv hi
    by_cases hx : ∃ c, s.mainPC = .exited c
    · exact ⟨[], s, rfl, by simp, hx, hi, rfl⟩
    · obtain ⟨a, s2, _, _, hlt, _, _⟩ := progress_any inv hi (fun c hc => hx ⟨c, hc⟩)
      omega
  | succ n ih =>
    intro s hn inv hi
    by_cases hx : ∃ c, s.mainPC = .exited c
    · exact ⟨[], s, rfl, by simp, hx, hi, rfl⟩
    · obtain ⟨a, s1, hs, ha, hlt, hi1, hf1⟩ := progress_any inv hi (fun c hc => hx ⟨c, hc⟩)
      obtain ⟨sched, s2, hr, hno, hx2, hi2, hf2⟩ := ih s1 (by omega) (inv_step hs inv) hi1
      refine ⟨a :: sched, s2, by rw [run_cons hs]; exact hr, ?_, hx2, hi2, by rw [hf2, hf1]⟩
      intro x hxm
      rcases List.mem_cons.1 hxm with h | h
      · rw [h]; exact ha
      · exact hno x h

/-- The exit status after a delivered interrupt, from what `Accept` did. -/
theorem exit_code_of_accept {s : State} (inv : Inv s) (hi : s.interrupted = true) {c : Nat}
    (hx : s.mainPC = .exited c) :
    (s.acceptFail = none → c = 0) ∧
    (∀ e, s.acceptFail = some e → errorsIs (some e) (some ErrServerClosed) = false →
      c = 1 ∧ s.out.getLast? = some (.fatal (some e))) := by
  obtain ⟨h1, _, h3, _, h5⟩ := exit_facts inv hx (inv.intr hi)
  have hret := inv.ret (by rw [h1]; rfl)
  constructor
  · intro hf
    rcases h5 with ⟨c0, _⟩ | ⟨_, e1, _⟩
    · exact c0
    · rcases hret.2.2 with ⟨r1, _⟩ | ⟨_, r2⟩
      · rw [h3, r1] at e1
        exact absurd e1 (by decide)
      · rw [hf] at r2
        exact absurd r2 (by decide)
  · intro e hf he
    have hsr : s.serveRet = some e := by
      rcases hret.2.2 with ⟨_, r2⟩ | ⟨r1, _⟩
      · rw [hf] at r2
        exact absurd r2 (by simp)
      · rw [r1, hf]
    rw [h3, hsr] at h5
    rcases h5 with ⟨_, e0, _⟩ | ⟨c1, _, _, o1⟩
    · rw [he] at e0
      exact absurd e0 (by decide)
    · exact ⟨c1, o1⟩

/-! ## The claims -/

/-- Claim C1. Terminal error classification. Once both tasks have completed and
`wg.Wait()` has returned, `main` exits with status 0 exactly when the value the
serving task stored in `err` satisfies `errors.Is(err, http.ErrServerClosed)`,
an error wrapping the sentinel included; for any other value `main` reports it
through `log.Fatal` and exits with status 1.  From the test of line 68 the exit
is reached by the statements of `main` alone. -/
theorem terminal_error_classification (args : List String) (b : Option GoError) (s : State)
    (hr : Reachable args b s) (hb : s.bound = true) :
    (s.mainPC = .classify →
      s.servePC = .done ∧ s.watchPC = .done ∧ s.err = s.serveRet ∧
      ∃ s2, run s (List.replicate
          (if errorsIs s.serveRet (some ErrServerClosed) = true then 4 else 1) .mainStep) = some s2 ∧
        s2.mainPC = .exited (if errorsIs s.serveRet (some ErrServerClosed) = true then 0 else 1)) ∧
    (∀ c, s.mainPC = .exited c →
      s.servePC = .done ∧ s.watchPC = .done ∧ s.err = s.serveRet ∧
      (c = 0 ↔ errorsIs s.serveRet (some ErrServerClosed) = true) ∧
      (c ≠ 0 → c = 1 ∧ s.out.getLast? = some (.fatal s.serveRet))) ∧
    (∀ m e, errorsIs (some e) (some ErrServerClosed) = true →
      errorsIs (some (.wrapped m e)) (some ErrServerClosed) = true) := by
  have inv := inv_reachable hr
  refine ⟨?_, ?_, ?_⟩
  · intro hc
    have hj := inv.join (by rw [hc]; rfl)
    have hret := inv.ret (by rw [hj.1]; rfl)
    have hf := inv.facts
    rw [hc] at hf
    simp only [mainFacts] at hf
    refine ⟨hj.1, hj.2, hret.1, ?_⟩
    rw [← hret.1]
    cases s
    rename_i bindErr flags mainPC servePC watchPC err listenArg bound lisOpen lisCloses defers notifyOn ctxDone interrupted rootArg inShutdown tracked onceClosed active served dropped closeReqs serveCalls serveRet acceptFail wg out
    dsimp only at *
    subst hc
    obtain ⟨_, hd, _⟩ := hf
    subst hd
    cases he : errorsIs err (some ErrServerClosed)
    · simp [run, step, mainStep, he, logFatal, List.replicate]
    · simp [run, step, mainStep, he, runDeferred, List.replicate]
  · intro c hx
    obtain ⟨h1, h2, h3, _, h5⟩ := exit_facts inv hx hb
    refine ⟨h1, h2, h3, ?_, ?_⟩
    · rw [← h3]
      rcases h5 with ⟨c0, e0, _⟩ | ⟨c1, e1, _⟩
      · simp [c0, e0]
      · simp [c1, e1]
    · intro hc
      rw [← h3]
      rcases h5 with ⟨c0, _⟩ | ⟨c1, _, _, o1⟩
      · exact absurd c0 hc
      · exact ⟨c1, o1⟩
  · intro m e he
    simp only [errorsIs] at he ⊢
    simp only [GoError.is, he, ite_self]

/-- Witness of claim C1: the run in which `Accept` fails ends with status 1 and the
failure as the last line logged. -/
theorem terminal_error_classification_witness :
    Reachable [] none serveFailureExit ∧ serveFailureExit.bound = true ∧
    serveFailureExit.mainPC = .exited 1 ∧
    (serveFailureExit.servePC = .done ∧ serveFailureExit.watchPC = .done ∧
      serveFailureExit.err = serveFailureExit.serveRet ∧
      (1 = 0 ↔ errorsIs serveFailureExit.serveRet (some ErrServerClosed) = true) ∧
      (1 ≠ 0 → 1 = 1 ∧
        serveFailureExit.out.getLast? = some (.fatal serveFailureExit.serveRet))) :=
  ⟨⟨serveFailureRun, rfl⟩, rfl, rfl,
    (terminal_error_classification [] none serveFailureExit ⟨serveFailureRun, rfl⟩ rfl).2.1 1 rfl⟩

/-- Counterexample to claim C2: in the run `serveFailureRun` the interrupt is
delivered, yet `main` exits with status 1, because `s.Serve` had returned an
error of `Accept` before the interrupt came; and in the run
`earlyInterruptRun` the interrupt is delivered before line 44 and ends the
process by the signal, with no exit status 0 either. -/
theorem serve_failure_then_interrupt_exits_one :
    run (start [] none) serveFailureRun = some serveFailureExit ∧
    serveFailureExit.interrupted = true ∧ serveFailureExit.mainPC = .exited 1 ∧
    ¬ (1 = 0) ∧
    runSig (boot [] none) earlyInterruptRun = some killedEarly ∧
    killedEarly.killed = true ∧ killedEarly.st.mainPC ≠ .exited 0 :=
  ⟨rfl, rfl, rfl, by decide, rfl, rfl, by decide⟩

/-- Claim C2, amended. With the interrupt deliverable at any time: the signal
ends the process only where the notification of `signal.NotifyContext` is not
registered (before line 44, or once the deferred `stop()` has run), and there
it does end it.  In every run in which the interrupt is delivered to the
notification, the exit status of `main` is 0 when `s.Serve` has not returned an
error of `Accept` of its own, however many requests are in flight, and it is 1,
with that error reported through `log.Fatal`, when `s.Serve` returned an error
of `Accept` that is not `http.ErrServerClosed`; and the tasks can be run on to
that exit. -/
theorem interrupt_exit_status (args : List String) (b : Option GoError) (p : Proc)
    (hr : ReachableSig args b p) :
    (p.killed = true →
      p.st.notifyOn = false ∧ (∀ c, p.st.mainPC ≠ .exited c) ∧
      (p.st.mainPC = .parse ∨ p.st.mainPC = .listen ∨ p.st.mainPC = .checkBind ∨
        p.st.mainPC = .deferClose ∨ p.st.mainPC = .notify ∨
        (p.st.mainPC = .returning ∧ Deferred.stop ∉ p.st.defers))) ∧
    (p.killed = false → p.st.notifyOn = false → (∀ c, p.st.mainPC ≠ .exited c) →
      stepSig p .interrupt = some { p with killed := true }) ∧
    (p.st.interrupted = true →
      (∀ c, p.st.mainPC = .exited c →
        (p.st.acceptFail = none → c = 0) ∧
        (∀ e, p.st.acceptFail = some e → errorsIs (some e) (some ErrServerClosed) = false →
          c = 1 ∧ p.st.out.getLast? = some (.fatal (some e)))) ∧
      (p.killed = false →
        ∃ sched p2, runSig p sched = some p2 ∧ p2.killed = false ∧
          (p.st.acceptFail = none → p2.st.mainPC = .exited 0) ∧
          (∀ e, p.st.acceptFail = some e →
            errorsIs (some e) (some ErrServerClosed) = false →
            p2.st.mainPC = .exited 1 ∧ p2.st.out.getLast? = some (.fatal (some e))))) := by
  obtain ⟨hreach, hkill⟩ := reachableSig_sound hr
  have inv := inv_reachable hreach
  refine ⟨?_, ?_, ?_⟩
  · intro hk
    obtain ⟨hn, hx⟩ := hkill hk
    have hf := inv.facts
    refine ⟨hn, ?_, ?_⟩
    · intro c hc
      rw [hc] at hx
      simp [MainPC.isExited] at hx
    · cases hm : p.st.mainPC <;> rw [hm] at hf hx <;>
        simp [mainFacts, hn, MainPC.isExited] at hf hx ⊢
      rcases hf.2.2 with h | h <;> simp [h]
  · intro hk hn hx
    have hne : p.st.mainPC.isExited = false := by
      cases hm : p.st.mainPC <;> first | rfl | exact absurd hm (hx _)
    simp [stepSig, hk, hne, step, hn]
  · intro hi
    refine ⟨fun c hc => exit_code_of_accept inv hi hc, ?_⟩
    intro hk
    obtain ⟨sched, s2, hrun, hno, ⟨c, hx⟩, hi2, hf2⟩ :=
      exit_reachable_any _ p.st (Nat.le_refl _) inv hi
    have hlift := runSig_of_run sched p.st s2 hrun hno
    have hp : ({ st := p.st, killed := false } : Proc) = p := by
      cases p
      simp only at hk
      subst hk
      rfl
    rw [hp] at hlift
    have hcode := exit_code_of_accept (inv_run hrun inv) hi2 hx
    rw [hf2] at hcode
    refine ⟨sched, _, hlift, rfl, ?_, ?_⟩
    · intro hf
      have := hcode.1 hf
      subst this
      exact hx
    · intro e hf he
      obtain ⟨c1, o1⟩ := hcode.2 e hf he
      subst c1
      exact ⟨hx, o1⟩

/-- Witness of claim C2: the interrupt delivered to the notification while one
request is in flight; the run in which `Accept` had failed before; and the
interrupt that comes before line 44. -/
theorem interrupt_exit_status_witness :
    ReachableSig [] none inFlightProc ∧ inFlightProc.st.interrupted = true ∧
    inFlightProc.st.active = 1 ∧ inFlightProc.killed = false ∧
    (∃ sched p2, runSig inFlightProc sched = some p2 ∧ p2.killed = false ∧
      (inFlightProc.st.acceptFail = none → p2.st.mainPC = .exited 0) ∧
      (∀ e, inFlightProc.st.acceptFail = some e →
        errorsIs (some e) (some ErrServerClosed) = false →
        p2.st.mainPC = .exited 1 ∧ p2.st.out.getLast? = some (.fatal (some e)))) ∧
    ReachableSig [] none serveFailureProc ∧
    serveFailureProc.st.acceptFail = some acceptFailure ∧
    (1 = 1 ∧ serveFailureProc.st.out.getLast? = some (.fatal (some acceptFailure))) ∧
    ReachableSig [] none killedEarly ∧ killedEarly.killed = true ∧
    (killedEarly.st.notifyOn = false ∧ (∀ c, killedEarly.st.mainPC ≠ .exited c) ∧
      (killedEarly.st.mainPC = .parse ∨ killedEarly.st.mainPC = .listen ∨
        killedEarly.st.mainPC = .checkBind ∨ killedEarly.st.mainPC = .deferClose ∨
        killedEarly.st.mainPC = .notify ∨
        (killedEarly.st.mainPC = .returning ∧ Deferred.stop ∉ killedEarly.st.defers))) :=
  ⟨⟨inFlightRun, rfl⟩, rfl, rfl, rfl,
    ((interrupt_exit_status [] none inFlightProc ⟨inFlightRun, rfl⟩).2.2 rfl).2 rfl,
    ⟨serveFailureRun, rfl⟩, rfl,
    (((interrupt_exit_status [] none serveFailureProc ⟨serveFailureRun, rfl⟩).2.2 rfl).1 1
      rfl).2 acceptFailure rfl rfl,
    ⟨earlyInterruptRun, rfl⟩, rfl,
    (interrupt_exit_status [] none killedEarly ⟨earlyInterruptRun, rfl⟩).1 rfl⟩

/-- Claim C3. Bind failure is fatal. In every run in which `net.Listen` returns an
error, neither task is ever launched and `s.Serve` is never called; the test of
line 38 leads to `log.Fatal(err)`, and once `net.Listen` has been called the
only exit status is 1, with the error as the only line logged. -/
theorem bind_failure_fatal (args : List String) (e : GoError) (s : State)
    (hr : Reachable args (some e) s) :
    s.bound = false ∧ s.servePC = .idle ∧ s.watchPC = .idle ∧ s.serveCalls = 0 ∧
    (s.mainPC = .parse ∨ s.mainPC = .listen ∨ s.mainPC = .checkBind ∨ ∃ c, s.mainPC = .exited c) ∧
    (s.mainPC = .checkBind →
      ∃ s2, step s .mainStep = some s2 ∧ s2.mainPC = .exited 1 ∧ s2.out = [.fatal (some e)]) ∧
    (∀ c, s.mainPC = .exited c → s.listenArg.isSome = true →
      c = 1 ∧ s.out = [.fatal (some e)]) := by
  have inv := inv_reachable hr
  have hbe : s.bindErr = some e := by
    obtain ⟨sched, hrun⟩ := hr
    have : ∀ (l : List Action) (t t2 : State), run t l = some t2 → t2.bindErr = t.bindErr := by
      intro l
      induction l with
      | nil =>
        intro t t2 h
        simp only [run, Option.some.injEq] at h
        rw [h]
      | cons a rest ih =>
        intro t t2 h
        simp only [run] at h
        cases hs : step t a with
        | none => simp [hs] at h
        | some t1 =>
          simp only [hs] at h
          rw [ih t1 t2 h]
          cases a
          all_goals
            simp only [step, mainStep, serveStep, watchStep] at hs
            (repeat' split at hs)
          all_goals first | (simp at hs; done) | skip
          all_goals
            simp only [Option.some.injEq, logFatal, serveReturn, serverClose, runDeferred] at hs
            subst hs
            first | rfl | (rename_i d _ _; cases d <;> rfl)
    exact this sched _ _ hrun
  have hb : s.bound = false := by
    cases hbd : s.bound
    · rfl
    · have := (inv.bindOk hbd).1
      rw [hbe] at this
      simp at this
  have hf := inv.facts
  rw [hb, hbe] at hf
  have hA := inv.aIdle
  have hB := inv.bIdle
  have hC := inv.callCnt
  rw [hb] at hA hB
  cases hm : s.mainPC <;> rw [hm] at hf hA hB <;>
    simp [mainFacts, launchedA, launchedB] at hf hA hB
  all_goals
    rw [hA] at hC
    simp only [ServePC.called, Bool.false_eq_true, if_false] at hC
    refine ⟨hb, hA, hB, hC, by simp, ?_, ?_⟩
  case parse.refine_1 => intro h; cases h
  case parse.refine_2 => intro c h; cases h
  case listen.refine_1 => intro h; cases h
  case listen.refine_2 => intro c h; cases h
  case checkBind.refine_1 =>
    intro _
    simp only [step, mainStep, hm, hf.1, if_true, logFatal, hf.2.1, hf.2.2.1]
    exact ⟨_, rfl, rfl, by simp⟩
  case checkBind.refine_2 => intro c h; cases h
  case exited.refine_1 => intro h; cases h
  case exited.refine_2 =>
    intro c hx hs
    simp only [MainPC.exited.injEq] at hx
    subst hx
    rcases hf.2.2.2 with f | f
    · rw [f.1] at hs
      simp at hs
    · rw [f.2.2.2.2, f.2.2.1]
      exact ⟨f.1, rfl⟩

/-- Witness of claim C3: the address is already in use. -/
theorem bind_failure_fatal_witness :
    Reachable [] (some addrInUse) bindFailedExit ∧
    bindFailedExit.servePC = .idle ∧ bindFailedExit.watchPC = .idle ∧
    bindFailedExit.serveCalls = 0 ∧ bindFailedExit.mainPC = .exited 1 :=
  ⟨⟨[.mainStep, .mainStep, .mainStep], rfl⟩,
    (bind_failure_fatal [] addrInUse bindFailedExit ⟨[.mainStep, .mainStep, .mainStep], rfl⟩).2.1,
    (bind_failure_fatal [] addrInUse bindFailedExit ⟨[.mainStep, .mainStep, .mainStep], rfl⟩).2.2.1,
    (bind_failure_fatal [] addrInUse bindFailedExit ⟨[.mainStep, .mainStep, .mainStep], rfl⟩).2.2.2.1,
    rfl⟩

/-- Counterexample to claim C4: in the run closed by the interrupt `main` exits with
status 0 after `Close` has run twice on the listener, once when the server
closed it and once more through the deferred `l.Close()` of line 41. -/
theorem listener_closed_twice_on_return :
    run (start [] none) signalCloseRun = some signalCloseExit ∧
    signalCloseExit.mainPC = .exited 0 ∧ signalCloseExit.bound = true ∧
    signalCloseExit.lisCloses = 2 ∧ ¬ (signalCloseExit.lisCloses = 1) :=
  ⟨rfl, rfl, rfl, rfl, by decide⟩

/-- Claim C4, amended. On every exit of `main` after `net.Listen` succeeded the
socket of the listener is closed. `Close` has run on it once when `main` exits
through `log.Fatal` after the join (the close of the server; the deferred
`l.Close()` does not run) and twice when `main` returns with status 0 (the
close of the server, then the deferred `l.Close()`). When `net.Listen` failed
there is no listener and `Close` has not run. -/
theorem listener_release (args : List String) (b : Option GoError) (s : State) (c : Nat)
    (hr : Reachable args b s) (hx : s.mainPC = .exited c) :
    s.lisOpen = false ∧
    (s.bound = true → (c = 0 ∧ s.lisCloses = 2) ∨ (c = 1 ∧ s.lisCloses = 1)) ∧
    (s.bound = false → s.lisCloses = 0) := by
  have inv := inv_reachable hr
  have hl := inv.lis
  have hcl := inv.closes
  cases hb : s.bound
  · have hA := inv.aIdle
    rw [hx, hb] at hA
    have hA2 := hA.2 rfl
    have ho := inv.once (by rw [hA2]; rfl)
    rw [ho, hx, hb] at hcl
    rw [hb] at hl
    simp only [lCloseRan, joined, Bool.false_and, Bool.false_eq_true, if_false] at hcl
    exact ⟨by simpa using hl, by simp, fun _ => hcl⟩
  · obtain ⟨h1, _, _, _, h5⟩ := exit_facts inv hx hb
    have ho := (inv.ret (by rw [h1]; rfl)).2.1
    rw [ho] at hl hcl
    refine ⟨by simpa using hl, fun _ => ?_, by simp⟩
    rw [hx, hb] at hcl
    rcases h5 with ⟨c0, _, d0⟩ | ⟨c1, _, d1, _⟩
    · rw [d0] at hcl
      exact Or.inl ⟨c0, by simpa [lCloseRan, joined] using hcl⟩
    · rw [d1] at hcl
      exact Or.inr ⟨c1, by simpa [lCloseRan, joined] using hcl⟩

/-- Witness of claim C4: the exit through `log.Fatal` after the join. -/
theorem listener_release_witness :
    Reachable [] none serveFailureExit ∧ serveFailureExit.mainPC = .exited 1 ∧
    (serveFailureExit.lisOpen = false ∧
      (serveFailureExit.bound = true →
        (1 = 0 ∧ serveFailureExit.lisCloses = 2) ∨ (1 = 1 ∧ serveFailureExit.lisCloses = 1)) ∧
      (serveFailureExit.bound = false → serveFailureExit.lisCloses = 0)) :=
  ⟨⟨serveFailureRun, rfl⟩, rfl,
    listener_release [] none serveFailureExit 1 ⟨serveFailureRun, rfl⟩ rfl⟩

/-- Claim C5. Join completeness. In every run in which the listener was bound, `main`
is past `wg.Wait()` (at the test of line 68, returning, or exited) only when
both tasks have run their `wg.Done` and the counter is 0; `wg.Wait()` lets
`main` through only then; and while a task is not done `main` has not exited. -/
theorem join_completeness (args : List String) (b : Option GoError) (s : State)
    (hr : Reachable args b s) (hb : s.bound = true) :
    ((s.mainPC = .classify ∨ s.mainPC = .returning ∨ ∃ c, s.mainPC = .exited c) →
      s.servePC = .done ∧ s.watchPC = .done ∧ s.wg = 0) ∧
    (s.mainPC = .wait → ∀ s2, step s .mainStep = some s2 →
      s.servePC = .done ∧ s.watchPC = .done ∧ s2.mainPC = .classify) ∧
    ((s.servePC ≠ .done ∨ s.watchPC ≠ .done) → ∀ c, s.mainPC ≠ .exited c) := by
  have inv := inv_reachable hr
  have past : (s.mainPC = .classify ∨ s.mainPC = .returning ∨ ∃ c, s.mainPC = .exited c) →
      s.servePC = .done ∧ s.watchPC = .done ∧ s.wg = 0 := by
    intro h
    have hj : joined s.mainPC s.bound = true := by
      rcases h with h | h | ⟨c, h⟩ <;> rw [h, hb] <;> rfl
    have hd := inv.join hj
    have hw := inv.wgCount
    rw [hd.1, hd.2] at hw
    refine ⟨hd.1, hd.2, ?_⟩
    rcases h with h | h | ⟨c, h⟩ <;> rw [h] at hw <;> simpa [ServePC.live, WatchPC.live, pendingAdd] using hw
  refine ⟨past, ?_, ?_⟩
  · intro hw s2 hs
    have hA := inv.aIdle
    have hB := inv.bIdle
    have hcnt := inv.wgCount
    rw [hw] at hA hB hcnt
    simp only [step, mainStep, hw] at hs
    split at hs
    · rename_i h0
      simp only [Option.some.injEq] at hs
      subst hs
      rw [h0] at hcnt
      simp only [pendingAdd] at hcnt
      refine ⟨?_, ?_, rfl⟩
      · cases hp : s.servePC <;> rw [hp] at hcnt hA <;>
          first | rfl | (exfalso; simp [ServePC.live, launchedA] at hcnt hA <;> omega)
      · cases hp : s.watchPC <;> rw [hp] at hcnt hB <;>
          first | rfl | (exfalso; simp [WatchPC.live, launchedB] at hcnt hB <;> omega)
    · simp at hs
  · intro hnd c hx
    have := past (Or.inr (Or.inr ⟨c, hx⟩))
    rcases hnd with h | h
    · exact h this.1
    · exact h this.2.1

/-- Witness of claim C5: the exit of the run closed by the interrupt. -/
theorem join_completeness_witness :
    Reachable [] none signalCloseExit ∧ signalCloseExit.bound = true ∧
    signalCloseExit.mainPC = .exited 0 ∧
    (signalCloseExit.servePC = .done ∧ signalCloseExit.watchPC = .done ∧
      signalCloseExit.wg = 0) :=
  ⟨⟨signalCloseRun, rfl⟩, rfl, rfl,
    (join_completeness [] none signalCloseExit ⟨signalCloseRun, rfl⟩ rfl).1
      (Or.inr (Or.inr ⟨0, rfl⟩))⟩

/-- Counterexample to claim C6: one request is in flight when the interrupt is
delivered; the watcher then calls `s.Close()`, the connection of that request is
closed under it, and `main` exits with status 0 although the request never
completed. -/
theorem in_flight_request_dropped_by_close :
    run (start [] none) inFlightRun = some inFlightState ∧
    inFlightState.interrupted = true ∧ inFlightState.active = 1 ∧
    inFlightState.served = 0 ∧
    run inFlightState shutdownRun = some droppedExit ∧
    droppedExit.mainPC = .exited 0 ∧ droppedExit.served = 0 ∧ droppedExit.dropped = 1 :=
  ⟨rfl, rfl, rfl, rfl, rfl, rfl, rfl, rfl⟩

/-- Claim C6, amended. The close the signal watcher requests is the immediate close
`s.Close()`: it marks the server as shutting down and closes every active
connection, so the requests in flight when it runs are dropped, not drained.
From then on no request is in flight, no connection is accepted and no request
completes. -/
theorem close_is_immediate (args : List String) (b : Option GoError) (s : State)
    (hr : Reachable args b s) :
    (s.watchPC = .close →
      ∃ s2, step s .watchStep = some s2 ∧ s2.inShutdown = true ∧ s2.active = 0 ∧
        s2.dropped = s.dropped + s.active ∧ s2.served = s.served) ∧
    (s.inShutdown = true →
      s.active = 0 ∧ step s .accept = none ∧ step s .connDone = none ∧
      ∀ a s2, step s a = some s2 →
        s2.active = 0 ∧ s2.served = s.served ∧ s2.dropped = s.dropped) := by
  have inv := inv_reachable hr
  refine ⟨?_, ?_⟩
  · intro hc
    simp only [step, watchStep, hc, serverClose]
    exact ⟨_, rfl, rfl, rfl, rfl, rfl⟩
  · intro hs
    have ha := inv.drained hs
    have hacc : step s .accept = none := by
      simp only [step]
      rw [if_neg]
      rintro ⟨h1, h2⟩
      have ho := inv.onceAcc h1
      have hl := inv.lis
      rw [ho, hs, h2] at hl
      simp at hl
    have hcd : step s .connDone = none := by
      simp only [step]
      rw [if_neg]
      omega
    refine ⟨ha, hacc, hcd, ?_⟩
    intro a s2 hstep
    have inv2 := inv_step hstep inv
    cases a
    case accept => rw [hacc] at hstep; simp at hstep
    case connDone => rw [hcd] at hstep; simp at hstep
    case interrupt =>
      simp only [step] at hstep
      split at hstep
      · simp only [Option.some.injEq] at hstep
        subst hstep
        exact ⟨ha, rfl, rfl⟩
      · simp at hstep
    case acceptErr e =>
      simp only [step, hs, if_true] at hstep
      split at hstep
      · simp only [Option.some.injEq, serveReturn] at hstep
        subst hstep
        exact ⟨ha, rfl, rfl⟩
      · simp at hstep
    case mainStep =>
      simp only [step, mainStep] at hstep
      (repeat' split at hstep)
      all_goals first | (simp at hstep; done) | skip
      all_goals
        simp only [Option.some.injEq, logFatal, runDeferred] at hstep
        subst hstep
        first
          | exact ⟨ha, rfl, rfl⟩
          | (rename_i d _ _; cases d <;> exact ⟨ha, rfl, rfl⟩)
    case serveStep =>
      simp only [step, serveStep] at hstep
      (repeat' split at hstep)
      all_goals first | (simp at hstep; done) | skip
      all_goals
        simp only [Option.some.injEq, serveReturn] at hstep
        subst hstep
        exact ⟨ha, rfl, rfl⟩
    case watchStep =>
      have hcl : s.watchPC.closed = true := by
        rw [← inv.shut]
        exact hs
      simp only [step, watchStep] at hstep
      (repeat' split at hstep)
      all_goals first | (simp at hstep; done) | skip
      all_goals
        simp only [Option.some.injEq, serverClose] at hstep
        subst hstep
        first
          | exact ⟨ha, rfl, rfl⟩
          | (rename_i hp; rw [hp] at hcl; simp [WatchPC.closed] at hcl)

/-- Witness of claim C6: the exit of the run in which a request was in flight. -/
theorem close_is_immediate_witness :
    Reachable [] none droppedExit ∧ droppedExit.inShutdown = true ∧
    droppedExit.active = 0 ∧ step droppedExit .accept = none ∧
    step droppedExit .connDone = none :=
  ⟨⟨inFlightRun ++ shutdownRun, rfl⟩, rfl,
    ((close_is_immediate [] none droppedExit ⟨inFlightRun ++ shutdownRun, rfl⟩).2 rfl).1,
    ((close_is_immediate [] none droppedExit ⟨inFlightRun ++ shutdownRun, rfl⟩).2 rfl).2.1,
    ((close_is_immediate [] none droppedExit ⟨inFlightRun ++ shutdownRun, rfl⟩).2 rfl).2.2.1⟩

/-- Claim C7. Single close request. In every run `s.Close()` is called at most once;
the only transition that calls it is line 64 of the signal watcher, taken after
the interrupt was delivered; after it the watcher has only its deferred
`wg.Done` left and is then done. -/
theorem single_close_request (args : List String) (b : Option GoError) (s : State)
    (hr : Reachable args b s) :
    s.closeReqs ≤ 1 ∧
    (s.closeReqs = 1 → s.interrupted = true ∧ (s.watchPC = .wgDone ∨ s.watchPC = .done)) ∧
    (∀ a s2, step s a = some s2 → s2.closeReqs ≠ s.closeReqs →
      a = .watchStep ∧ s.watchPC = .close ∧ s.interrupted = true ∧ s.closeReqs = 0 ∧
      s2.closeReqs = 1 ∧ s2.watchPC = .wgDone) ∧
    (s.watchPC = .wgDone →
      step s .watchStep = some { s with wg := s.wg - 1, watchPC := .done }) ∧
    (s.watchPC = .done → step s .watchStep = none) := by
  have inv := inv_reachable hr
  have hcnt := inv.closeCnt
  refine ⟨?_, ?_, ?_, ?_, ?_⟩
  · rw [hcnt]
    split <;> omega
  · intro h1
    rw [h1] at hcnt
    have hcl : s.watchPC.closed = true := by
      cases hc : s.watchPC.closed
      · rw [hc] at hcnt
        simp at hcnt
      · rfl
    refine ⟨inv.woken ?_, ?_⟩
    · cases hp : s.watchPC <;> rw [hp] at hcl <;> simp [WatchPC.closed, WatchPC.woken] at hcl ⊢
    · cases hp : s.watchPC <;> rw [hp] at hcl <;> simp [WatchPC.closed] at hcl ⊢
  · intro a s2 hstep hne
    cases a
    case watchStep =>
      simp only [step, watchStep] at hstep
      split at hstep
      case h_4 hp =>
        simp only [Option.some.injEq, serverClose] at hstep
        subst hstep
        rw [hp] at hcnt
        simp only [WatchPC.closed, Bool.false_eq_true, if_false] at hcnt
        refine ⟨rfl, hp, inv.woken (by rw [hp]; rfl), hcnt, ?_, rfl⟩
        simp [hcnt]
      all_goals (repeat' split at hstep)
      all_goals first | (simp at hstep; done) | skip
      all_goals
        simp only [Option.some.injEq] at hstep
        subst hstep
        exact absurd rfl hne
    case mainStep =>
      simp only [step, mainStep] at hstep
      (repeat' split at hstep)
      all_goals first | (simp at hstep; done) | skip
      all_goals
        simp only [Option.some.injEq, logFatal, runDeferred] at hstep
        subst hstep
        first
          | exact absurd rfl hne
          | (rename_i d _ _; cases d <;> exact absurd rfl hne)
    all_goals
      simp only [step, serveStep] at hstep
      (repeat' split at hstep)
    all_goals first | (simp at hstep; done) | skip
    all_goals
      simp only [Option.some.injEq, serveReturn] at hstep
      subst hstep
      exact absurd rfl hne
  · intro hp
    simp only [step, watchStep, hp]
  · intro hp
    simp only [step, watchStep, hp]

/-- Witness of claim C7: the watcher at line 64 after the interrupt, the one
transition that calls `s.Close()`, the deferred `wg.Done` that follows, and the
watcher done at the exit of the run closed by the interrupt. -/
theorem single_close_request_witness :
    Reachable [] none aboutToClose ∧ step aboutToClose .watchStep = some justClosed ∧
    (Action.watchStep = Action.watchStep ∧ aboutToClose.watchPC = .close ∧
      aboutToClose.interrupted = true ∧ aboutToClose.closeReqs = 0 ∧
      justClosed.closeReqs = 1 ∧ justClosed.watchPC = .wgDone) ∧
    Reachable [] none justClosed ∧ justClosed.closeReqs ≤ 1 ∧
    (justClosed.interrupted = true ∧
      (justClosed.watchPC = .wgDone ∨ justClosed.watchPC = .done)) ∧
    step justClosed .watchStep =
      some { justClosed with wg := justClosed.wg - 1, watchPC := .done } ∧
    Reachable [] none signalCloseExit ∧ signalCloseExit.closeReqs = 1 ∧
    (signalCloseExit.interrupted = true ∧
      (signalCloseExit.watchPC = .wgDone ∨ signalCloseExit.watchPC = .done)) ∧
    step signalCloseExit .watchStep = none :=
  ⟨⟨closingRun, rfl⟩, rfl,
    (single_close_request [] none aboutToClose ⟨closingRun, rfl⟩).2.2.1 .watchStep justClosed
      rfl (by decide),
    ⟨closedRun, rfl⟩,
    (single_close_request [] none justClosed ⟨closedRun, rfl⟩).1,
    (single_close_request [] none justClosed ⟨closedRun, rfl⟩).2.1 rfl,
    (single_close_request [] none justClosed ⟨closedRun, rfl⟩).2.2.2.1 rfl,
    ⟨signalCloseRun, rfl⟩, rfl,
    (single_close_request [] none signalCloseExit ⟨signalCloseRun, rfl⟩).2.1 rfl,
    (single_close_request [] none signalCloseExit ⟨signalCloseRun, rfl⟩).2.2.2.2 rfl⟩

/-- Claim C8. Command line configuration. The address `net.Listen` is called with is
the variable `addr` left by `flag.Parse`, and the directory given to `http.Dir`
is the variable `dir`; a variable whose flag was not set on the command line
has its default, `localhost:9090` or `.`, whatever the other flag; and a flag
that is given sets its own variable to the value given. -/
theorem cli_configuration (args : List String) (b : Option GoError) (s : State)
    (hr : Reachable args b s) :
    (∀ x, s.listenArg = some x → ∃ fs, flagParse (init args) = some (.ok fs) ∧
      x = fs.addr ∧ ("addr" ∉ fs.actual → x = "localhost:9090")) ∧
    (∀ d, s.rootArg = some d → ∃ fs, flagParse (init args) = some (.ok fs) ∧
      d = fs.dir ∧ ("dir" ∉ fs.actual → d = ".")) ∧
    flagParse (init []) = some (.ok (init [])) ∧
    (∀ a, flagParse (init ["-addr", a]) =
      some (.ok { addr := a, dir := ".", actual := ["addr"], args := [] })) ∧
    (∀ d, flagParse (init ["-dir", d]) =
      some (.ok { addr := "localhost:9090", dir := d, actual := ["dir"], args := [] })) ∧
    (∀ a d, flagParse (init ["-addr", a, "-dir", d]) =
      some (.ok { addr := a, dir := d, actual := ["addr", "dir"], args := [] })) := by
  refine ⟨?_, ?_, rfl, fun _ => rfl, fun _ => rfl, fun _ _ => rfl⟩
  · intro x hx
    obtain ⟨hp, hl, _⟩ := args_passed hr (Or.inl (by rw [hx]; rfl))
    have hl2 := hl (by rw [hx]; rfl)
    rw [hx] at hl2
    simp only [Option.some.injEq] at hl2
    refine ⟨s.flags, hp, hl2, fun hn => ?_⟩
    rw [hl2]
    exact (parseLoop_frame _ _ _ hp).2.1 hn
  · intro d hd
    obtain ⟨hp, _, hl⟩ := args_passed hr (Or.inr (by rw [hd]; rfl))
    have hl2 := hl (by rw [hd]; rfl)
    rw [hd] at hl2
    simp only [Option.some.injEq] at hl2
    refine ⟨s.flags, hp, hl2, fun hn => ?_⟩
    rw [hl2]
    exact (parseLoop_frame _ _ _ hp).2.2 hn

/-- Witness of claim C8: both flags are given. -/
theorem cli_configuration_witness :
    Reachable bothFlags none serverBuilt ∧
    serverBuilt.listenArg = some ":8080" ∧ serverBuilt.rootArg = some "/srv/doc" ∧
    (∃ fs, flagParse (init bothFlags) = some (.ok fs) ∧
      ":8080" = fs.addr ∧ ("addr" ∉ fs.actual → ":8080" = "localhost:9090")) :=
  ⟨⟨List.replicate 7 .mainStep, rfl⟩, rfl, rfl,
    (cli_configuration bothFlags none serverBuilt ⟨List.replicate 7 .mainStep, rfl⟩).1 ":8080" rfl⟩

/-- Claim C9. A serve failure alone never terminates the process. In every run in
which the listener was bound, `main` is past `wg.Wait()` only if the interrupt
was delivered; as long as it was not, `main` has not exited and has logged no
fatal error, the watcher is not done, the receive of line 62 blocks, and
`wg.Wait()` blocks, whatever `s.Serve` has returned. -/
theorem serve_failure_waits_for_interrupt (args : List String) (b : Option GoError) (s : State)
    (hr : Reachable args b s) (hb : s.bound = true) :
    ((s.mainPC = .classify ∨ s.mainPC = .returning ∨ ∃ c, s.mainPC = .exited c) →
      s.interrupted = true) ∧
    (s.interrupted = false →
      (∀ c, s.mainPC ≠ .exited c) ∧ (∀ e, LogLine.fatal e ∉ s.out) ∧ s.watchPC ≠ .done ∧
      (s.watchPC = .waitCtx → step s .watchStep = none) ∧
      (s.mainPC = .wait → step s .mainStep = none)) := by
  have inv := inv_reachable hr
  have past : (s.mainPC = .classify ∨ s.mainPC = .returning ∨ ∃ c, s.mainPC = .exited c) →
      s.interrupted = true := by
    intro h
    have hj : joined s.mainPC s.bound = true := by
      rcases h with h | h | ⟨c, h⟩ <;> rw [h, hb] <;> rfl
    exact inv.woken (by rw [(inv.join hj).2]; rfl)
  have hnd : s.interrupted = false → s.watchPC ≠ .done := by
    intro hi hd
    have := inv.woken (by rw [hd]; rfl)
    rw [hi] at this
    exact absurd this (by decide)
  refine ⟨past, fun hi => ⟨?_, ?_, hnd hi, ?_, ?_⟩⟩
  · intro c hx
    have := past (Or.inr (Or.inr ⟨c, hx⟩))
    rw [hi] at this
    exact absurd this (by decide)
  · intro e he
    obtain ⟨c, hx⟩ := inv.fatalOut e he
    have := past (Or.inr (Or.inr ⟨c, hx⟩))
    rw [hi] at this
    exact absurd this (by decide)
  · intro hp
    have hctx : s.ctxDone = false := by
      cases hc : s.ctxDone
      · rfl
      · rcases inv.ctx hc with h | h
        · rw [hi] at h
          exact absurd h (by decide)
        · have := (inv.join h).2
          rw [hp] at this
          exact absurd this (by decide)
    simp only [step, watchStep, hp, hctx, Bool.false_eq_true, if_false]
  · intro hw
    have hcnt := inv.wgCount
    have hB := inv.bIdle
    rw [hw] at hcnt hB
    have hne : s.wg ≠ 0 := by
      intro h0
      rw [h0] at hcnt
      cases hp : s.watchPC <;> rw [hp] at hcnt hB <;>
        first
          | exact hnd hi hp
          | (simp [WatchPC.live, launchedB, pendingAdd] at hcnt hB <;> omega)
    simp only [step, mainStep, hw]
    rw [if_neg hne]

/-- Witness of claim C9: `s.Serve` has returned an error of `Accept`, the serving
task is done, no interrupt has come, and `main` is held at `wg.Wait()`. -/
theorem serve_failure_waits_for_interrupt_witness :
    Reachable [] none serveFailedWaiting ∧ serveFailedWaiting.bound = true ∧
    serveFailedWaiting.interrupted = false ∧ serveFailedWaiting.servePC = .done ∧
    serveFailedWaiting.serveRet = some acceptFailure ∧
    serveFailedWaiting.mainPC = .wait ∧
    step serveFailedWaiting .mainStep = none :=
  ⟨⟨serveFailsAloneRun, rfl⟩, rfl, rfl, rfl, rfl, rfl,
    ((serve_failure_waits_for_interrupt [] none serveFailedWaiting
      ⟨serveFailsAloneRun, rfl⟩ rfl).2 rfl).2.2.2.2 rfl⟩

/-- Claim C10. In every run in which the interrupt is delivered and `s.Serve` does not
return an error of `Accept` of its own, the only exit status is 0 and the exit
can be reached; once `main` is past `wg.Wait()` the variable `err` holds the
value the serving task stored, `http.ErrServerClosed`, not the nil left by
`net.Listen`; and when the watcher has called `s.Close()` before the serving
task calls `s.Serve(l)`, that call returns `http.ErrServerClosed` at once. -/
theorem interrupt_close_exit_zero (args : List String) (b : Option GoError) (s : State)
    (hr : Reachable args b s) (hi : s.interrupted = true) (hf : s.acceptFail = none) :
    (∀ c, s.mainPC = .exited c → c = 0) ∧
    ((s.mainPC = .classify ∨ s.mainPC = .returning ∨ ∃ c, s.mainPC = .exited c) →
      s.err = s.serveRet ∧ s.serveRet = some ErrServerClosed) ∧
    (s.servePC = .call → s.inShutdown = true →
      ∃ s2, step s .serveStep = some s2 ∧ s2.serveRet = some ErrServerClosed ∧
        s2.err = some ErrServerClosed ∧ s2.acceptFail = none) ∧
    (∃ sched s2, run s sched = some s2 ∧ s2.mainPC = .exited 0 ∧
      s2.err = some ErrServerClosed) := by
  have inv := inv_reachable hr
  have hb := inv.intr hi
  have past : ∀ (t : State), Inv t → t.bound = true → t.acceptFail = none →
      (t.mainPC = .classify ∨ t.mainPC = .returning ∨ ∃ c, t.mainPC = .exited c) →
      t.err = t.serveRet ∧ t.serveRet = some ErrServerClosed := by
    intro t it htb htf h
    have hj : joined t.mainPC t.bound = true := by
      rcases h with h | h | ⟨c, h⟩ <;> rw [h, htb] <;> rfl
    have hret := it.ret (by rw [(it.join hj).1]; rfl)
    refine ⟨hret.1, ?_⟩
    rcases hret.2.2 with ⟨r1, _⟩ | ⟨_, r2⟩
    · exact r1
    · rw [htf] at r2
      exact absurd r2 (by decide)
  have code : ∀ (t : State), Inv t → t.bound = true → t.acceptFail = none →
      ∀ c, t.mainPC = .exited c → c = 0 := by
    intro t it htb htf c hx
    obtain ⟨_, _, _, _, h5⟩ := exit_facts it hx htb
    have hp := past t it htb htf (Or.inr (Or.inr ⟨c, hx⟩))
    rcases h5 with ⟨c0, _⟩ | ⟨_, e1, _⟩
    · exact c0
    · rw [hp.1, hp.2] at e1
      exact absurd e1 (by decide)
  refine ⟨code s inv hb hf, past s inv hb hf, ?_, ?_⟩
  · intro hp hs
    simp only [step, serveStep, hp, hs, if_true, serveReturn]
    exact ⟨_, rfl, rfl, rfl, hf⟩
  · obtain ⟨sched, s2, hrun, ⟨c, hx⟩, hi2, hf2⟩ :=
      exit_reachable _ s (Nat.le_refl _) inv hi hf
    have inv2 := inv_run hrun inv
    have hb2 := inv2.intr hi2
    have hc := code s2 inv2 hb2 hf2 c hx
    subst hc
    have hp := past s2 inv2 hb2 hf2 (Or.inr (Or.inr ⟨0, hx⟩))
    exact ⟨sched, s2, hrun, hx, by rw [hp.1, hp.2]⟩

/-- Witness of claim C10: the run in which the watcher calls `s.Close()` before the
serving task has called `s.Serve(l)`. -/
theorem interrupt_close_exit_zero_witness :
    Reachable [] none closeBeforeServeExit ∧ closeBeforeServeExit.interrupted = true ∧
    closeBeforeServeExit.acceptFail = none ∧ closeBeforeServeExit.mainPC = .exited 0 ∧
    (closeBeforeServeExit.err = closeBeforeServeExit.serveRet ∧
      closeBeforeServeExit.serveRet = some ErrServerClosed) :=
  ⟨⟨closeBeforeServeRun, rfl⟩, rfl, rfl, rfl,
    (interrupt_close_exit_zero [] none closeBeforeServeExit ⟨closeBeforeServeRun, rfl⟩
      rfl rfl).2.1 (Or.inr (Or.inr ⟨0, rfl⟩))⟩

end Doc
